import Mathlib

/-!
# s3_list: a verification development

Shallow embedding of `main.go` (the parallel hierarchical lister built around
`FilesListRequest`) and of `s3_list.go` (`ListFiles`).

Go strings are modelled as lists of characters, Go `int`/`int64` as `Int`
(the counters only ever hold the number of prefixes and keys in flight, so no
wrap-around is modelled), `error` values as `Option Str` (`none` is `nil`).
-/

namespace S3List

/-- A Go string. -/
abbrev Str := List Char

/-- A Go error value: `none` is `nil`, `some msg` is `errors.New(msg)`. -/
abbrev GoError := Option Str

/-! ## `main.go`: the request object and its options -/

/-- The configuration fields of `FilesListRequest` (main.go:14-27).  The channels,
the counters and the bucket handle live in the engine state below. -/
structure FilesListRequest where
  accessKey : Str
  secretKey : Str
  bucketName : Str
  regionName : Str
  startFolder : Str
  concurrencyLevel : Int
  deriving DecidableEq, Repr

/-- `NewFilesListRequest` (main.go:29-43). -/
def NewFilesListRequest (access_key secret_key bucket_name region_name : Str) :
    FilesListRequest :=
  { accessKey := access_key
    secretKey := secret_key
    bucketName := bucket_name
    regionName := region_name
    startFolder := []
    concurrencyLevel := 5 }

/-- `strings.TrimLeft(s, cutset)`: drop every leading character that occurs in
`cutset`. -/
def TrimLeft (s cutset : Str) : Str :=
  s.dropWhile (fun c => decide (c ∈ cutset))

/-- `FilesListRequest.Folder` (main.go:75-78): the updated request and the
returned error. -/
def Folder (this : FilesListRequest) (folder : Str) : FilesListRequest × GoError :=
  ({ this with startFolder := TrimLeft folder ['/'] }, none)

/-- `FilesListRequest.Concurrency` (main.go:80-86). -/
def Concurrency (this : FilesListRequest) (n : Int) : FilesListRequest × GoError :=
  if n < 1 then
    (this, some "Concurrency can not be less than 1".toList)
  else
    ({ this with concurrencyLevel := n }, none)

/-- The validation prefix of `FilesListRequest.Run` (main.go:89-98).  The table
`aws.Regions` belongs to an external package and is a parameter: `regions r`
says that `r` is a key of the table.  The result is the error `Run` returns
before doing anything else, or `none` when `Run` goes on to start the engine. -/
def Run_validate (regions : Str → Bool) (this : FilesListRequest) : GoError :=
  if this.accessKey = [] then
    some "Invalid AccessKey".toList
  else if this.secretKey = [] then
    some "Invalid SecretKey".toList
  else if !regions this.regionName then
    some "Invalid region name".toList
  else
    none

end S3List

namespace S3List

/-! ## `main.go`: the object-store client seen by the engine -/

/-- The `s3.Key` entries of a listing; `main.go` reads only the field `Key`. -/
structure S3Key where
  Key : Str
  deriving DecidableEq, Repr

/-- The fields of `s3.ListResp` that `main.go` reads. -/
structure ListResp where
  Contents : List S3Key
  CommonPrefixes : List Str
  IsTruncated : Bool
  NextMarker : Str
  deriving DecidableEq, Repr

/-- `bucket.List(prefix, delim, marker, max)`: an external call.  The client has
a state of its own (type `σ`), so that a mock may fail a request and later
succeed; the answer is a transport error or a page. -/
abbrev BucketClient (σ : Type) := σ → Str → Str → Str → Int → σ × Except Str ListResp

/-! ## `main.go`: one `Lister` worker as a labelled transition system -/

/-- The program points of a `Lister` goroutine (main.go:157-198). -/
inductive ListerPC
  /-- line 159: blocked in `folder := <-this.folder_in` -/
  | recv
  /-- line 175: about to call `bucket.List(folder, "/", last, 1000)` -/
  | list (folder last : Str)
  /-- line 181: about to run `addFolders(len(result.CommonPrefixes))` -/
  | addFolders (folder : Str) (result : ListResp)
  /-- line 182: about to run `addFiles(len(result.Contents))` -/
  | addFiles (folder : Str) (result : ListResp)
  /-- lines 184-186: the range loop over `result.CommonPrefixes`, `rest` still to send -/
  | sendFolders (folder : Str) (result : ListResp) (rest : List Str)
  /-- lines 188-190: the range loop over `result.Contents`, `rest` still to send -/
  | sendFiles (folder : Str) (result : ListResp) (rest : List S3Key)
  /-- line 162: `listObjectsInBucket` has returned, about to run `subFolders(1)` -/
  | subFolders
  deriving DecidableEq, Repr

/-- What one statement of a `Lister` does to the rest of the program. -/
inductive Effect
  /-- a call of `bucket.List` with these arguments; `ok` tells whether it succeeded -/
  | call (folder delim marker : Str) (max : Int) (ok : Bool)
  | addFolders (n : Int)
  | addFiles (n : Int)
  /-- `this.folder_out <- c` -/
  | sendFolder (c : Str)
  /-- `this.file_out <- x` -/
  | sendFile (x : Str)
  | subFolders (n : Int)
  /-- a statement without effect outside the worker (leaving a range loop) -/
  | tau
  deriving DecidableEq, Repr

/-- One statement of a `Lister` that is not its receive (main.go:160-197): the
effect, the next program point and the client's next state.  At `recv` the
worker is blocked until somebody sends on `folder_in`. -/
def listerStep {σ : Type} (client : BucketClient σ) (st : σ) :
    ListerPC → Option (Effect × ListerPC × σ)
  | .recv => none
  | .list folder last =>
    match client st folder ['/'] last 1000 with
    | (st', .error _) => some (.call folder ['/'] last 1000 false, .list folder last, st')
    | (st', .ok result) => some (.call folder ['/'] last 1000 true, .addFolders folder result, st')
  | .addFolders folder result =>
    some (.addFolders result.CommonPrefixes.length, .addFiles folder result, st)
  | .addFiles folder result =>
    some (.addFiles result.Contents.length,
          .sendFolders folder result result.CommonPrefixes, st)
  | .sendFolders folder result [] =>
    some (.tau, .sendFiles folder result result.Contents, st)
  | .sendFolders folder result (c :: rest) =>
    some (.sendFolder c, .sendFolders folder result rest, st)
  | .sendFiles folder result [] =>
    some (.tau,
          if result.IsTruncated = false then .subFolders
          else .list folder result.NextMarker, st)
  | .sendFiles folder result (file :: rest) =>
    some (.sendFile ('/' :: file.Key), .sendFiles folder result rest, st)
  | .subFolders => some (.subFolders 1, .recv, st)

/-- Running a worker from a program point until `listObjectsInBucket` returns
(the worker is at line 162), every send finding its receiver ready: the effects
in order, without the silent ones, and the client's final state.  `fuel` bounds
the number of statements; `none` means the bound was too small. -/
def runLister {σ : Type} (client : BucketClient σ) :
    Nat → σ → ListerPC → List Effect → Option (List Effect × σ)
  | 0, _, _, _ => none
  | fuel + 1, st, pc, acc =>
    if pc = .subFolders then some (acc, st)
    else
      match listerStep client st pc with
      | none => none
      | some (eff, pc', st') =>
        runLister client fuel st' pc' (if eff = .tau then acc else acc ++ [eff])

/-- `listObjectsInBucket(bucket, folder, marker)` (main.go:166-198) as a whole.
The parameter `marker` is not read by the code: the first request uses
`last = ""`. -/
def listObjectsInBucket {σ : Type} (client : BucketClient σ) (fuel : Nat) (st : σ)
    (folder _marker : Str) : Option (List Effect × σ) :=
  runLister client fuel st (.list folder []) []

/-! ## `main.go`: the engine (`Run`, `Aux`, the `Lister` workers) -/

/-- The program points of `Run` once validation has passed and the goroutines are
spawned (main.go:113-123). -/
inductive RunPC
  /-- line 113: about to run `addFolders(1)` -/
  | addFolders
  /-- line 114: blocked in `this.folder_in <- this.startFolder` -/
  | seed
  /-- lines 115-122: the polling loop -/
  | poll
  /-- line 123: `Run` has returned nil (still holding `stats.M`) -/
  | returned
  deriving DecidableEq, Repr

/-- The program points of the first goroutine of `Aux` (main.go:127-136). -/
inductive ForwarderPC
  /-- line 130: blocked in `file := <-this.file_out` -/
  | recv
  /-- line 131: about to run `this.files <- file` -/
  | send (file : Str)
  /-- line 132: about to run `subFiles(1)` -/
  | subFiles
  deriving DecidableEq, Repr

/-- The program points of the second goroutine of `Aux` (main.go:137-154). -/
inductive PumpPC
  /-- lines 140-144: the non-blocking receive from `folder_out` -/
  | recvSel
  /-- lines 145-152: the non-blocking send of the front element to `folder_in` -/
  | offerSel
  deriving DecidableEq, Repr

/-- The state of a running engine.  All channels of the request are unbuffered, so
a send and its receive are one step and the channels hold nothing. -/
structure State (σ : Type) where
  /-- `stats.Folders` -/
  Folders : Int
  /-- `stats.Files` -/
  Files : Int
  /-- whether `stats.M` is held for good (`Run` leaves its loop without unlocking) -/
  locked : Bool
  /-- the state of the object-store client -/
  client : σ
  /-- `this.startFolder` -/
  startFolder : Str
  run : RunPC
  listers : List ListerPC
  forwarder : ForwarderPC
  /-- the list `l` of the queue goroutine -/
  queue : List Str
  pump : PumpPC
  /-- what the consumer has received on `this.files`, oldest first -/
  files : List Str
  /-- whether `this.files` has been closed -/
  filesClosed : Bool

/-- The engine right after `Run` has called `Aux` and spawned its workers
(main.go:108-112): `concurrencyLevel` workers blocked in their receive. -/
def Run_init {σ : Type} (this : FilesListRequest) (st : σ) : State σ :=
  { Folders := 0
    Files := 0
    locked := false
    client := st
    startFolder := this.startFolder
    run := .addFolders
    listers := List.replicate this.concurrencyLevel.toNat .recv
    forwarder := .recv
    queue := []
    pump := .recvSel
    files := []
    filesClosed := false }

/-- `Run` up to the point where the engine is running (main.go:88-112): the
validation error, or the engine's initial state. -/
def Run_start {σ : Type} (regions : Str → Bool) (this : FilesListRequest) (st : σ) :
    Except Str (State σ) :=
  match Run_validate regions this with
  | some e => .error e
  | none => .ok (Run_init this st)

/-- The scheduler's choices. -/
inductive Action
  /-- the next statement of `Run` (line 113, or one round of the polling loop) -/
  | run
  /-- line 114 meets the receive of worker `i` -/
  | seed (i : Nat)
  /-- the next statement of worker `i` (not its receive) -/
  | lister (i : Nat)
  /-- the next statement of the forwarder (not its receive) -/
  | forwarder
  /-- line 143: nothing to receive, `default` -/
  | pumpSkipRecv
  /-- line 148 meets the receive of worker `i` -/
  | pumpOffer (i : Nat)
  /-- lines 146/150: the list is empty or no worker is ready, `default` -/
  | pumpSkipOffer
  deriving DecidableEq, Repr

/-- The effect of a worker's statement on the shared state; `none` when the
statement cannot run now (its partner is not ready, or the mutex is held). -/
def applyEffect {σ : Type} (s : State σ) : Effect → Option (State σ)
  | .call _ _ _ _ _ => some s
  | .addFolders n => if s.locked then none else some { s with Folders := s.Folders + n }
  | .addFiles n => if s.locked then none else some { s with Files := s.Files + n }
  | .subFolders n => if s.locked then none else some { s with Folders := s.Folders - n }
  | .sendFolder c =>
    if s.pump = .recvSel then some { s with queue := s.queue ++ [c], pump := .offerSel }
    else none
  | .sendFile x =>
    if s.forwarder = .recv then some { s with forwarder := .send x } else none
  | .tau => some s

/-- One step of the engine under the scheduler's choice, `none` when the chosen
goroutine cannot move.  A send on an unbuffered channel and the matching
receive are one step.  The consumer is taken to receive whatever the forwarder
sends on `files`.  The `default` branches of the queue goroutine may be taken
whether or not a partner is ready, which allows every timing of the two
`select` statements. -/
def step {σ : Type} (client : BucketClient σ) (s : State σ) : Action → Option (State σ)
  | .run =>
    match s.run with
    | .addFolders =>
      if s.locked then none else some { s with Folders := s.Folders + 1, run := .seed }
    | .seed => none
    | .poll =>
      if s.locked then none
      else if s.Folders = 0 ∧ s.Files = 0 then some { s with locked := true, run := .returned }
      else some s
    | .returned => none
  | .seed i =>
    if s.run = .seed ∧ s.listers[i]? = some .recv then
      some { s with run := .poll, listers := s.listers.set i (.list s.startFolder []) }
    else none
  | .lister i =>
    match s.listers[i]? with
    | none => none
    | some pc =>
      match listerStep client s.client pc with
      | none => none
      | some (eff, pc', st') =>
        applyEffect { s with client := st', listers := s.listers.set i pc' } eff
  | .forwarder =>
    match s.forwarder with
    | .recv => none
    | .send file => some { s with files := s.files ++ [file], forwarder := .subFiles }
    | .subFiles =>
      if s.locked then none else some { s with Files := s.Files - 1, forwarder := .recv }
  | .pumpSkipRecv =>
    if s.pump = .recvSel then some { s with pump := .offerSel } else none
  | .pumpOffer i =>
    if s.pump = .offerSel ∧ s.listers[i]? = some .recv then
      match s.queue with
      | [] => none
      | e :: rest =>
        some { s with queue := rest, pump := .recvSel,
                      listers := s.listers.set i (.list e []) }
    else none
  | .pumpSkipOffer =>
    if s.pump = .offerSel then some { s with pump := .recvSel } else none

/-- Running the engine under a schedule. -/
def exec {σ : Type} (client : BucketClient σ) : State σ → List Action → Option (State σ)
  | s, [] => some s
  | s, a :: as =>
    match step client s a with
    | none => none
    | some s' => exec client s' as

/-- The states the engine can reach from `s₀`. -/
def Reachable {σ : Type} (client : BucketClient σ) (s₀ s : State σ) : Prop :=
  ∃ as : List Action, exec client s₀ as = some s

end S3List

namespace S3List

/-! ## `s3_list.go`: `ListFiles` -/

/-- `ListRequest` (s3_list.go:13-16). -/
structure ListRequest where
  BucketName : Str
  Prefix : Str
  deriving DecidableEq, Repr

/-- `Owner` (s3_list.go:63-69); a nil pointer field is `none`. -/
structure Owner where
  DisplayName : Option Str
  ID : Option Str
  deriving DecidableEq, Repr

/-- `ListResult` (s3_list.go:19-60); a nil pointer or nil slice is `none` or `[]`.
A timestamp is an integer. -/
structure ListResult where
  Err : GoError := none
  ChecksumAlgorithm : List (Option Str) := []
  ETag : Option Str := none
  Key : Option Str := none
  LastModified : Option Int := none
  Owner : Option Owner := none
  Size : Option Int := none
  StorageClass : Option Str := none
  deriving DecidableEq, Repr

/-- The fields of the SDK's `s3.Object` that `ListFiles` copies. -/
structure S3Object where
  ChecksumAlgorithm : List (Option Str)
  ETag : Option Str
  Key : Option Str
  LastModified : Option Int
  Owner : Option Owner
  Size : Option Int
  StorageClass : Option Str
  deriving DecidableEq, Repr

/-- The fields of `s3.ListObjectsV2Output` that `ListFiles` reads. -/
structure ListObjectsV2Output where
  Contents : List S3Object
  NextContinuationToken : Option Str
  deriving DecidableEq, Repr

/-- The fields of `s3.ListObjectsV2Input` that `listItems` sets (s3_list.go:145-155);
all others are nil. -/
structure ListObjectsV2Input where
  Bucket : Str
  ContinuationToken : Option Str
  Delimiter : Str
  Prefix : Str
  deriving DecidableEq, Repr

/-- A `*session.Session` that is not nil. -/
structure Session where
  id : Nat
  deriving DecidableEq, Repr

/-- `client.ListObjectsV2(input)` on the client made by `s3.New(sess)`: an
external call, with a state of its own.  It returns a possibly nil output and a
possibly nil error. -/
abbrev V2Client (σ : Type) :=
  Session → σ → ListObjectsV2Input → σ × Option ListObjectsV2Output × GoError

/-- `listItems` (s3_list.go:144-162). -/
def listItems {σ : Type} (client : V2Client σ) (sess : Session) (st : σ)
    (bucketName pfx : Str) (nextToken : Option Str) :
    σ × Option ListObjectsV2Output × GoError :=
  match client sess st
      { Bucket := bucketName, ContinuationToken := nextToken,
        Delimiter := ['/'], Prefix := pfx } with
  | (st', _, some err) => (st', none, some err)
  | (st', res, none) => (st', res, none)

/-- What the goroutine started by `ListFiles` does, as seen from outside. -/
inductive ChanEvent
  /-- a listing call to the object store -/
  | call (input : ListObjectsV2Input)
  /-- `ch <- r` -/
  | send (r : ListResult)
  /-- `close(ch)` -/
  | close
  deriving DecidableEq, Repr

/-- The record built for one item (s3_list.go:115-129). -/
def toListResult (item : S3Object) : ListResult :=
  { Err := none
    ChecksumAlgorithm := item.ChecksumAlgorithm
    ETag := item.ETag
    Key := item.Key
    LastModified := item.LastModified
    Size := item.Size
    StorageClass := item.StorageClass
    Owner := match item.Owner with
      | none => none
      | some o => some { DisplayName := o.DisplayName, ID := o.ID } }

/-- The loop of the listing goroutine (s3_list.go:97-139); `fuel` bounds the number
of pages and `none` means the bound was too small. -/
def ListFiles_loop {σ : Type} (client : V2Client σ) (sess : Session) (lr : ListRequest) :
    Nat → σ → Option Str → List ChanEvent → Option (List ChanEvent)
  | 0, _, _, _ => none
  | fuel + 1, st, nextToken, acc =>
    let input : ListObjectsV2Input :=
      { Bucket := lr.BucketName, ContinuationToken := nextToken,
        Delimiter := ['/'], Prefix := lr.Prefix }
    match listItems client sess st lr.BucketName lr.Prefix nextToken with
    | (_, _, some err) =>
      some (acc ++ [.call input, .send { Err := some err }, .close])
    | (_, none, none) =>
      some (acc ++ [.call input, .send { Err := none }, .close])
    | (st', some bucketObjects, none) =>
      let acc' := acc ++ [.call input] ++
        bucketObjects.Contents.map (fun item => ChanEvent.send (toListResult item))
      match bucketObjects.NextContinuationToken with
      | none => some (acc' ++ [.close])
      | some t => ListFiles_loop client sess lr fuel st' (some t) acc'

/-- `ListFiles` (s3_list.go:71-142): the events of the goroutine that feeds the
returned channel, in order. -/
def ListFiles {σ : Type} (client : V2Client σ) (fuel : Nat) (st : σ)
    (sess : Option Session) (lr : ListRequest) : Option (List ChanEvent) :=
  match sess with
  | none => some [.send { Err := some "sess is nil".toList }, .close]
  | some sess =>
    if lr.BucketName = [] then
      some [.send { Err := some "missing ListRequest.BucketName param".toList }, .close]
    else
      ListFiles_loop client sess lr fuel st none []

end S3List

namespace S3List

/-! ## Vocabulary for the properties of one call of `listObjectsInBucket` -/

/-- The prefixes a trace sends on `folder_out`, in order. -/
def sentFolders (tr : List Effect) : List Str :=
  tr.filterMap (fun e => match e with | .sendFolder c => some c | _ => none)

/-- The entries a trace sends on `file_out`, in order. -/
def sentFiles (tr : List Effect) : List Str :=
  tr.filterMap (fun e => match e with | .sendFile x => some x | _ => none)

/-- The markers of the successful listing requests of a trace, in order. -/
def requestedMarkers (tr : List Effect) : List Str :=
  tr.filterMap (fun e => match e with | .call _ _ m _ true => some m | _ => none)

/-- The counter updates of a trace, in order. -/
def counterUpdates (tr : List Effect) : List Effect :=
  tr.filter (fun e => match e with
    | .addFolders _ => true | .addFiles _ => true | .subFolders _ => true | _ => false)

/-- The listing of `folder`, asked from marker `m` in client state `st`, consists
of exactly these pages: each request succeeds, every page but the last is
truncated, and each next page is the answer to the previous page's `NextMarker`. -/
def ServesPages {σ : Type} (client : BucketClient σ) (folder : Str) :
    σ → Str → List ListResp → Prop
  | _, _, [] => False
  | st, m, [pg] => ∃ st', client st folder ['/'] m 1000 = (st', .ok pg) ∧ pg.IsTruncated = false
  | st, m, pg :: pg' :: ps =>
    ∃ st', client st folder ['/'] m 1000 = (st', .ok pg) ∧ pg.IsTruncated = true ∧
      ServesPages client folder st' pg.NextMarker (pg' :: ps)

/-- The trace expected of one page requested with marker `m`: the request, the
two counter updates, the common prefixes and the entries of the contents. -/
def pageTrace (folder m : Str) (pg : ListResp) : List Effect :=
  [.call folder ['/'] m 1000 true,
   .addFolders pg.CommonPrefixes.length,
   .addFiles pg.Contents.length] ++
  pg.CommonPrefixes.map Effect.sendFolder ++
  pg.Contents.map (fun file => Effect.sendFile ('/' :: file.Key))

/-- The trace expected of a sequence of pages, the first one being requested with
marker `m` and each next one with the previous page's `NextMarker`. -/
def pagesTrace (folder : Str) : Str → List ListResp → List Effect
  | _, [] => []
  | m, pg :: ps => pageTrace folder m pg ++ pagesTrace folder pg.NextMarker ps

/-- The markers with which a sequence of pages is requested, the first being `m`. -/
def pageMarkers : Str → List ListResp → List Str
  | _, [] => []
  | m, pg :: ps => m :: pageMarkers pg.NextMarker ps

/-- The number of statements a worker runs for one page. -/
def pageFuel (pg : ListResp) : Nat :=
  pg.CommonPrefixes.length + pg.Contents.length + 5

/-- The number of statements a worker runs for a sequence of pages. -/
def pagesFuel (ps : List ListResp) : Nat := (ps.map pageFuel).sum

/-- A mock that never fails and answers from `list`, a function of the folder and
the marker. -/
def pureClient (list : Str → Str → ListResp) : BucketClient Unit :=
  fun st folder _ marker _ => (st, .ok (list folder marker))

/-- An example listing: the folder `d/` comes in three pages (markers `""`, `m1`,
`m2`), the second one empty; it holds `d/a`, `d/b` and the folder `d/e/`, which
holds `d/e/c`; the root holds `t` and the folder `d/`. -/
def examplePages (folder marker : Str) : ListResp :=
  if folder = [] then
    { Contents := [⟨"t".toList⟩], CommonPrefixes := ["d/".toList],
      IsTruncated := false, NextMarker := [] }
  else if folder = "d/".toList then
    if marker = [] then
      { Contents := [⟨"d/a".toList⟩], CommonPrefixes := ["d/e/".toList],
        IsTruncated := true, NextMarker := "m1".toList }
    else if marker = "m1".toList then
      { Contents := [], CommonPrefixes := [], IsTruncated := true, NextMarker := "m2".toList }
    else
      { Contents := [⟨"d/b".toList⟩], CommonPrefixes := [],
        IsTruncated := false, NextMarker := [] }
  else if folder = "d/e/".toList then
    { Contents := [⟨"d/e/c".toList⟩], CommonPrefixes := [],
      IsTruncated := false, NextMarker := [] }
  else
    { Contents := [], CommonPrefixes := [], IsTruncated := false, NextMarker := [] }

/-- A mock that answers from `list` but first fails: its state lists, for the
successive page requests, how many transport errors precede the success.  With
the empty state it never fails. -/
def flakyClient (list : Str → Str → ListResp) : BucketClient (List Nat)
  | [], folder, _, marker, _ => ([], .ok (list folder marker))
  | 0 :: rest, folder, _, marker, _ => (rest, .ok (list folder marker))
  | (n + 1) :: rest, _, _, _, _ => (n :: rest, .error "transport error".toList)

/-- A trace of a run without failures, with the retries the schedule `sched`
causes put in: before each successful request, as many failed copies of that
same request as the schedule says. -/
def withRetries : List Nat → List Effect → List Effect
  | _, [] => []
  | [], e :: tr => e :: withRetries [] tr
  | n :: rest, .call folder delim marker max true :: tr =>
    List.replicate n (Effect.call folder delim marker max false) ++
      Effect.call folder delim marker max true :: withRetries rest tr
  | n :: rest, e :: tr => e :: withRetries (n :: rest) tr

/-- Whether an effect is a failed listing request. -/
def isFailedCall : Effect → Bool
  | .call _ _ _ _ false => true
  | _ => false

end S3List

namespace S3List

/-! ## The engine's steps, case by case -/

/-- Whether a step does work: the rounds of `Run`'s polling loop that find work
outstanding, the `default` branches of the queue goroutine and the failed
listing requests leave everything as it was and are not work. -/
def works {σ : Type} (client : BucketClient σ) (s : State σ) : Action → Bool
  | .run => decide (s.run ≠ .poll ∨ (s.Folders = 0 ∧ s.Files = 0))
  | .lister i =>
    match s.listers[i]? with
    | some (.list folder last) =>
      match client s.client folder ['/'] last 1000 with
      | (_, .error _) => false
      | (_, .ok _) => true
    | _ => true
  | .pumpSkipRecv => false
  | .pumpSkipOffer => false
  | _ => true

/-- The number of steps of a schedule that do work. -/
def workCount {σ : Type} (client : BucketClient σ) : State σ → List Action → Nat
  | _, [] => 0
  | s, a :: as =>
    match step client s a with
    | none => 0
    | some s' => (if works client s a then 1 else 0) + workCount client s' as

/-- The steps of the engine, one constructor per kind of step, with the worker
concerned singled out of the list of workers.  The flag tells whether the step
does work.  `step_sound` shows that every step of `step` is one of these. -/
inductive Step {σ : Type} (client : BucketClient σ) : State σ → Bool → State σ → Prop
  | runAddFolders (s : State σ) (hr : s.run = .addFolders) (hl : s.locked = false) :
    Step client s true { s with Folders := s.Folders + 1, run := .seed }
  | runPollBusy (s : State σ) (hr : s.run = .poll) (hl : s.locked = false)
      (hb : ¬ (s.Folders = 0 ∧ s.Files = 0)) :
    Step client s false s
  | runReturn (s : State σ) (hr : s.run = .poll) (hl : s.locked = false)
      (hq : s.Folders = 0 ∧ s.Files = 0) :
    Step client s true { s with locked := true, run := .returned }
  | seed (s : State σ) (L₁ L₂ : List ListerPC) (hr : s.run = .seed)
      (hL : s.listers = L₁ ++ .recv :: L₂) :
    Step client s true
      { s with run := .poll, listers := L₁ ++ .list s.startFolder [] :: L₂ }
  | callErr (s : State σ) (L₁ L₂ : List ListerPC) (f m : Str) (st' : σ) (e : Str)
      (hL : s.listers = L₁ ++ .list f m :: L₂)
      (hc : client s.client f ['/'] m 1000 = (st', .error e)) :
    Step client s false { s with client := st' }
  | callOk (s : State σ) (L₁ L₂ : List ListerPC) (f m : Str) (st' : σ) (r : ListResp)
      (hL : s.listers = L₁ ++ .list f m :: L₂)
      (hc : client s.client f ['/'] m 1000 = (st', .ok r)) :
    Step client s true { s with client := st', listers := L₁ ++ .addFolders f r :: L₂ }
  | addFolders (s : State σ) (L₁ L₂ : List ListerPC) (f : Str) (r : ListResp)
      (hL : s.listers = L₁ ++ .addFolders f r :: L₂) (hl : s.locked = false) :
    Step client s true
      { s with Folders := s.Folders + r.CommonPrefixes.length,
               listers := L₁ ++ .addFiles f r :: L₂ }
  | addFiles (s : State σ) (L₁ L₂ : List ListerPC) (f : Str) (r : ListResp)
      (hL : s.listers = L₁ ++ .addFiles f r :: L₂) (hl : s.locked = false) :
    Step client s true
      { s with Files := s.Files + r.Contents.length,
               listers := L₁ ++ .sendFolders f r r.CommonPrefixes :: L₂ }
  | sendFolder (s : State σ) (L₁ L₂ : List ListerPC) (f : Str) (r : ListResp)
      (c : Str) (rest : List Str)
      (hL : s.listers = L₁ ++ .sendFolders f r (c :: rest) :: L₂) (hp : s.pump = .recvSel) :
    Step client s true
      { s with queue := s.queue ++ [c], pump := .offerSel,
               listers := L₁ ++ .sendFolders f r rest :: L₂ }
  | foldersDone (s : State σ) (L₁ L₂ : List ListerPC) (f : Str) (r : ListResp)
      (hL : s.listers = L₁ ++ .sendFolders f r [] :: L₂) :
    Step client s true { s with listers := L₁ ++ .sendFiles f r r.Contents :: L₂ }
  | sendFile (s : State σ) (L₁ L₂ : List ListerPC) (f : Str) (r : ListResp)
      (k : S3Key) (rest : List S3Key)
      (hL : s.listers = L₁ ++ .sendFiles f r (k :: rest) :: L₂) (hf : s.forwarder = .recv) :
    Step client s true
      { s with forwarder := .send ('/' :: k.Key),
               listers := L₁ ++ .sendFiles f r rest :: L₂ }
  | filesDone (s : State σ) (L₁ L₂ : List ListerPC) (f : Str) (r : ListResp)
      (hL : s.listers = L₁ ++ .sendFiles f r [] :: L₂) :
    Step client s true
      { s with listers :=
          L₁ ++ (if r.IsTruncated = false then ListerPC.subFolders
                 else ListerPC.list f r.NextMarker) :: L₂ }
  | subFolders (s : State σ) (L₁ L₂ : List ListerPC)
      (hL : s.listers = L₁ ++ .subFolders :: L₂) (hl : s.locked = false) :
    Step client s true { s with Folders := s.Folders - 1, listers := L₁ ++ .recv :: L₂ }
  | forward (s : State σ) (x : Str) (hf : s.forwarder = .send x) :
    Step client s true { s with files := s.files ++ [x], forwarder := .subFiles }
  | subFiles (s : State σ) (hf : s.forwarder = .subFiles) (hl : s.locked = false) :
    Step client s true { s with Files := s.Files - 1, forwarder := .recv }
  | pumpSkipRecv (s : State σ) (hp : s.pump = .recvSel) :
    Step client s false { s with pump := .offerSel }
  | pumpOffer (s : State σ) (L₁ L₂ : List ListerPC) (c : Str) (rest : List Str)
      (hp : s.pump = .offerSel) (hq : s.queue = c :: rest)
      (hL : s.listers = L₁ ++ .recv :: L₂) :
    Step client s true
      { s with queue := rest, pump := .recvSel, listers := L₁ ++ .list c [] :: L₂ }
  | pumpSkipOffer (s : State σ) (hp : s.pump = .offerSel) :
    Step client s false { s with pump := .recvSel }

/-! ## What the counters count -/

/-- The prefixes a worker accounts for: the one it is listing, and the common
prefixes of the current page it has counted and not yet sent to the queue. -/
def ListerPC.heldFolders : ListerPC → Int
  | .recv => 0
  | .list _ _ => 1
  | .addFolders _ _ => 1
  | .addFiles _ r => 1 + r.CommonPrefixes.length
  | .sendFolders _ _ rest => 1 + rest.length
  | .sendFiles _ _ _ => 1
  | .subFolders => 1

/-- The keys of the current page a worker has counted and not yet sent to the
forwarder. -/
def ListerPC.heldFiles : ListerPC → Int
  | .sendFolders _ r _ => r.Contents.length
  | .sendFiles _ _ rest => rest.length
  | _ => 0

/-- The number of prefixes that have been counted and whose worker has not yet
finished them (finishing ends with `subFolders(1)`): the seed between lines 113
and 114, the prefixes in the queue, and those the workers hold. -/
def outstandingFolders {σ : Type} (s : State σ) : Int :=
  (if s.run = .seed then 1 else 0) + s.queue.length +
    (s.listers.map ListerPC.heldFolders).sum

/-- The number of keys that have been counted and not yet sent to the consumer on
`files`: those the workers hold and the one the forwarder is about to send. -/
def outstandingFiles {σ : Type} (s : State σ) : Int :=
  (s.listers.map ListerPC.heldFiles).sum +
    (match s.forwarder with | .send _ => 1 | _ => 0)

/-- The facts about an engine started with `n` workers on start folder `p` that
hold in every reachable state, whatever the client does. -/
structure Inv {σ : Type} (n : Nat) (p : Str) (s : State σ) : Prop where
  notClosed : s.filesClosed = false
  workers : s.listers.length = n
  start : s.startFolder = p
  lock : s.locked = true ↔ s.run = .returned
  folders : s.Folders = outstandingFolders s
  files : s.Files = outstandingFiles s + (if s.forwarder = .subFiles then 1 else 0)
  fresh : s.run = .addFolders → s.Folders = 0 ∧ s.Files = 0 ∧ s.files = []
  seeding : s.run = .seed → s.Folders = 1 ∧ s.Files = 0 ∧ s.files = []
  done : s.run = .returned → s.Folders = 0 ∧ s.Files = 0

end S3List

namespace S3List

/-- The request used in the examples: keys and region set, one worker, start
folder `f` installed through `Folder`. -/
def exampleRequest (f : Str) : FilesListRequest :=
  (Concurrency (Folder (NewFilesListRequest "AK".toList "SK".toList "bucket".toList
    "us-east-1".toList) f).1 1).1

/-- A schedule for one worker that lists a folder holding one key and nothing
else, up to the moment the forwarder has sent the key to the consumer. -/
def scheduleUntilDelivered : List Action :=
  [.run, .seed 0, .lister 0, .lister 0, .lister 0, .lister 0, .lister 0, .forwarder]

/-- The same schedule carried on until `Run` returns. -/
def scheduleUntilReturn : List Action :=
  scheduleUntilDelivered ++ [.forwarder, .lister 0, .lister 0, .run]

/-- The listing of a prefix returns only keys and common prefixes that begin with
that prefix. -/
def ListsWithin {σ : Type} (client : BucketClient σ) : Prop :=
  ∀ (st : σ) (f d m : Str) (n : Int) (st' : σ) (r : ListResp),
    client st f d m n = (st', .ok r) →
      (∀ k ∈ r.Contents, f <+: k.Key) ∧ (∀ c ∈ r.CommonPrefixes, f <+: c)

/-- Everything a worker holds begins with `p`. -/
def ListerPC.Within (p : Str) : ListerPC → Prop
  | .recv => True
  | .list f _ => p <+: f
  | .addFolders f r =>
    p <+: f ∧ (∀ c ∈ r.CommonPrefixes, p <+: c) ∧ (∀ k ∈ r.Contents, p <+: k.Key)
  | .addFiles f r =>
    p <+: f ∧ (∀ c ∈ r.CommonPrefixes, p <+: c) ∧ (∀ k ∈ r.Contents, p <+: k.Key)
  | .sendFolders f r rest =>
    p <+: f ∧ (∀ c ∈ rest, p <+: c) ∧ (∀ k ∈ r.Contents, p <+: k.Key)
  | .sendFiles f _ rest => p <+: f ∧ (∀ k ∈ rest, p <+: k.Key)
  | .subFolders => True

/-- An entry of the output channel made from a key that begins with `p`: the key
with a `/` put in front. -/
def EntryWithin (p x : Str) : Prop := ∃ k : Str, x = '/' :: k ∧ p <+: k

/-- Every prefix and key in the engine begins with the start folder `p`. -/
structure PrefixInv {σ : Type} (p : Str) (s : State σ) : Prop where
  start : s.startFolder = p
  listers : ∀ pc ∈ s.listers, pc.Within p
  queue : ∀ c ∈ s.queue, p <+: c
  forwarder : ∀ x, s.forwarder = .send x → EntryWithin p x
  files : ∀ x ∈ s.files, EntryWithin p x

end S3List

namespace S3List

/-! ## Vocabulary for completeness: the bucket behind the mock -/

/-- The entry the engine delivers for the object with key `k`. -/
def entryOf (k : Str) : Str := '/' :: k

/-- The entries the engine is expected to deliver from a bucket holding the
objects `objs` (their keys) when started on prefix `p`: one per object whose key
begins with `p`. -/
def expectedEntries (objs : List Str) (p : Str) : List Str :=
  (objs.filter (fun k => decide (p <+: k))).map entryOf

/-- The keys a listing of prefix `f` with delimiter `/` returns as contents:
those that begin with `f` and have no `/` after it. -/
def directKeys (objs : List Str) (f : Str) : List Str :=
  objs.filter (fun k => decide (f <+: k ∧ '/' ∉ k.drop f.length))

/-- The common prefix under which a listing of prefix `f` with delimiter `/`
groups the key `k`: `k` up to and including the first `/` after `f`. -/
def childOf (f k : Str) : Str :=
  f ++ (k.drop f.length).takeWhile (fun c => c != '/') ++ ['/']

/-- The common prefixes of a listing of prefix `f` with delimiter `/`, each once. -/
def childPrefixes (objs : List Str) (f : Str) : List Str :=
  ((objs.filter (fun k => decide (f <+: k ∧ '/' ∈ k.drop f.length))).map
    (childOf f)).dedup

/-- The mock `list` (a function of the prefix and the marker) serves the bucket
holding `objs` with delimiter `/`: the listing of every prefix is a finite
sequence of pages, however it is split, whose contents are together the keys
directly under the prefix and whose common prefixes are together its child
prefixes. -/
def ServesBucket (list : Str → Str → ListResp) (objs : List Str) : Prop :=
  ∀ f : Str, ∃ ps : List ListResp,
    ServesPages (pureClient list) f () [] ps ∧
    (ps.flatMap (fun pg => pg.Contents.map (fun k => k.Key))).Perm (directKeys objs f) ∧
    (ps.flatMap (fun pg => pg.CommonPrefixes)).Perm (childPrefixes objs f)

/-- The client answers every request for a page from `list` (it may keep a state
of its own, but it does not fail). -/
def AnswersFrom {σ : Type} (client : BucketClient σ) (list : Str → Str → ListResp) : Prop :=
  ∀ (st : σ) (f m : Str), ∃ st', client st f ['/'] m 1000 = (st', .ok (list f m))

/-- A bound that decreases from a prefix to its child prefixes. -/
def prefixRank (objs : List Str) (f : Str) : Nat :=
  (objs.map List.length).sum + 1 - f.length

/-- The mock of the examples as a bucket: its four objects. -/
def exampleObjects : List Str :=
  ["t".toList, "d/a".toList, "d/b".toList, "d/e/c".toList]

/-! ## What is still owed: a potential over the states of the engine

The same sum is used twice: with values in multisets of entries (`u = 0`,
`ent x = {x}`) it is the collection of entries delivered or still to be
delivered, with values in the natural numbers (`u = 1`, `ent x = 0`) it is
the number of working steps still to be done. -/

section Potential
variable {β : Type} [AddCommMonoid β] (u : β) (ent : Str → β)

/-- What one page is worth, `g` being what a child prefix is worth once a worker
has received it. -/
def pagePot (g : Str → β) (pg : ListResp) : β :=
  3 • u + (pg.CommonPrefixes.map (fun c => 2 • u + g c)).sum + u +
    (pg.Contents.map (fun k => 3 • u + ent ('/' :: k.Key))).sum + u

/-- What a prefix is worth once a worker has received it, exploring at most
`n` levels; `chainOf f m` is the sequence of pages that list `f` from marker `m`. -/
def folderPot (chainOf : Str → Str → List ListResp) : Nat → Str → β
  | 0, _ => 0
  | n + 1, f => ((chainOf f []).map (pagePot u ent (folderPot chainOf n))).sum + u

/-- What the pages after page `r` of prefix `f` are worth. -/
def tailPot (chainOf : Str → Str → List ListResp) (g : Str → β) (f : Str) (r : ListResp) : β :=
  if r.IsTruncated = true then ((chainOf f r.NextMarker).map (pagePot u ent g)).sum else 0

/-- What a worker is worth at each program point. -/
def listerPot (chainOf : Str → Str → List ListResp) (g : Str → β) : ListerPC → β
  | .recv => 0
  | .list f m => ((chainOf f m).map (pagePot u ent g)).sum + u
  | .addFolders f r =>
    2 • u + (r.CommonPrefixes.map (fun c => 2 • u + g c)).sum + u +
      (r.Contents.map (fun k => 3 • u + ent ('/' :: k.Key))).sum + u +
      tailPot u ent chainOf g f r + u
  | .addFiles f r =>
    u + (r.CommonPrefixes.map (fun c => 2 • u + g c)).sum + u +
      (r.Contents.map (fun k => 3 • u + ent ('/' :: k.Key))).sum + u +
      tailPot u ent chainOf g f r + u
  | .sendFolders f r rest =>
    (rest.map (fun c => 2 • u + g c)).sum + u +
      (r.Contents.map (fun k => 3 • u + ent ('/' :: k.Key))).sum + u +
      tailPot u ent chainOf g f r + u
  | .sendFiles f r rest =>
    (rest.map (fun k => 3 • u + ent ('/' :: k.Key))).sum + u +
      tailPot u ent chainOf g f r + u
  | .subFolders => u

/-- What the forwarder is worth at each program point. -/
def forwarderPot : ForwarderPC → β
  | .recv => 0
  | .send x => 2 • u + ent x
  | .subFiles => u

/-- What `Run` is worth at each program point, `p` being the start folder. -/
def runPot (g : Str → β) (p : Str) : RunPC → β
  | .addFolders => 3 • u + g p
  | .seed => 2 • u + g p
  | .poll => u
  | .returned => 0

/-- What a state of the engine is worth. -/
def statePot {σ : Type} (chainOf : Str → Str → List ListResp) (g : Str → β)
    (s : State σ) : β :=
  runPot u g s.startFolder s.run + (s.listers.map (listerPot u ent chainOf g)).sum +
    forwarderPot u ent s.forwarder + (s.queue.map (fun c => u + g c)).sum +
    (s.files.map ent).sum

end Potential

/-- The pages `chainOf` and the bound `rank` describe the finite tree that the
mock `list` serves: the listing of every prefix from the empty marker has
pages; a listing that has pages starts with the mock's answer and goes on, when
that answer is truncated, with the pages from its `NextMarker`; and the rank
decreases from a prefix to the common prefixes of its pages. -/
structure TreeOracle (list : Str → Str → ListResp) (chainOf : Str → Str → List ListResp)
    (rank : Str → Nat) : Prop where
  root : ∀ f, chainOf f [] ≠ []
  unfold : ∀ f m, chainOf f m ≠ [] →
    chainOf f m = list f m ::
      (if (list f m).IsTruncated = true then chainOf f (list f m).NextMarker else []) ∧
    ((list f m).IsTruncated = true → chainOf f (list f m).NextMarker ≠ [])
  wf : ∀ f m pg c, pg ∈ chainOf f m → c ∈ pg.CommonPrefixes → rank c < rank f

/-- The pages a worker still has to request exist. -/
def ListerPC.OnChain (chainOf : Str → Str → List ListResp) : ListerPC → Prop
  | .recv => True
  | .list f m => chainOf f m ≠ []
  | .addFolders f r => r.IsTruncated = true → chainOf f r.NextMarker ≠ []
  | .addFiles f r => r.IsTruncated = true → chainOf f r.NextMarker ≠ []
  | .sendFolders f r _ => r.IsTruncated = true → chainOf f r.NextMarker ≠ []
  | .sendFiles f r _ => r.IsTruncated = true → chainOf f r.NextMarker ≠ []
  | .subFolders => True

end S3List

namespace S3List

/-- A mock serving the bucket `objs` in two pages per prefix: the first (empty
marker) holds the keys directly under the prefix and is truncated, the second
holds the child prefixes. -/
def pagedMock (objs : List Str) (f m : Str) : ListResp :=
  if m = [] then
    { Contents := (directKeys objs f).map S3Key.mk, CommonPrefixes := [],
      IsTruncated := true, NextMarker := "m".toList }
  else
    { Contents := [], CommonPrefixes := childPrefixes objs f,
      IsTruncated := false, NextMarker := [] }

end S3List

namespace S3List

/-! ## Options of the request: `Concurrency` and `Folder` -/

lemma Concurrency_level_pos (r : FilesListRequest) (n : Int)
    (h : 1 ≤ r.concurrencyLevel) : 1 ≤ (Concurrency r n).1.concurrencyLevel := by
  unfold Concurrency
  split
  · exact h
  · simp only; omega

lemma Concurrency_foldl_pos (ns : List Int) :
    ∀ r : FilesListRequest, 1 ≤ r.concurrencyLevel →
      1 ≤ (ns.foldl (fun r n => (Concurrency r n).1) r).concurrencyLevel := by
  induction ns with
  | nil => intro r h; simpa using h
  | cons n ns ih =>
    intro r h
    simp only [List.foldl_cons]
    exact ih _ (Concurrency_level_pos r n h)

/-- C5: `Concurrency n` returns an error exactly when `n < 1`; on error the
concurrency level (indeed the whole request) is unchanged, on success the level
becomes `n`; and starting from `NewFilesListRequest` (level 5) the level stays
at least 1 after any sequence of `Concurrency` calls. -/
theorem Concurrency_spec (this : FilesListRequest) (n : Int) :
    ((Concurrency this n).2 ≠ none ↔ n < 1) ∧
    (Concurrency this n).1.concurrencyLevel = (if n < 1 then this.concurrencyLevel else n) ∧
    (Concurrency this n).1 = (if n < 1 then this else { this with concurrencyLevel := n }) ∧
    (NewFilesListRequest this.accessKey this.secretKey this.bucketName
        this.regionName).concurrencyLevel = 5 ∧
    ∀ (a s b r : Str) (ns : List Int),
      1 ≤ (ns.foldl (fun q m => (Concurrency q m).1)
            (NewFilesListRequest a s b r)).concurrencyLevel := by
  refine ⟨?_, ?_, ?_, rfl, ?_⟩
  · unfold Concurrency; split <;> simp [*]
  · unfold Concurrency; split <;> simp [*]
  · unfold Concurrency; split <;> simp [*]
  · intro a s b r ns
    exact Concurrency_foldl_pos ns _ (by simp [NewFilesListRequest])

lemma TrimLeft_slash_split (f : Str) :
    f = List.replicate (f.takeWhile (fun c => decide (c ∈ ['/']))).length '/' ++
        TrimLeft f ['/'] := by
  unfold TrimLeft
  have h : f.takeWhile (fun c => decide (c ∈ ['/'])) =
      List.replicate (f.takeWhile (fun c => decide (c ∈ ['/']))).length '/' := by
    rw [List.eq_replicate_iff]
    refine ⟨rfl, ?_⟩
    intro b hb
    have := List.mem_takeWhile_imp hb
    simpa using this
  conv_lhs => rw [← List.takeWhile_append_dropWhile (fun c => decide (c ∈ ['/'])) f]
  rw [← h]

lemma TrimLeft_slash_head (f : Str) : ¬ (['/'] <+: TrimLeft f ['/']) := by
  unfold TrimLeft
  intro h
  obtain ⟨t, ht⟩ := h
  have hne : List.dropWhile (fun c => decide (c ∈ ['/'])) f ≠ [] := by
    rw [← ht]; simp
  have := List.head_dropWhile_not (fun c => decide (c ∈ ['/'])) f hne
  have hh : (List.dropWhile (fun c => decide (c ∈ ['/'])) f).head hne = '/' := by
    have : ∀ (l : Str) (hl : l ≠ []), l = ['/'] ++ t → l.head hl = '/' := by
      intro l hl e; subst e; rfl
    exact this _ hne ht.symm
  rw [hh] at this
  simp at this

lemma TrimLeft_idem (f : Str) : TrimLeft (TrimLeft f ['/']) ['/'] = TrimLeft f ['/'] := by
  have h := TrimLeft_slash_head f
  generalize TrimLeft f ['/'] = g at h ⊢
  cases g with
  | nil => rfl
  | cons c g =>
    unfold TrimLeft
    have hc : c ≠ '/' := by
      intro e; subst e; exact h ⟨g, rfl⟩
    simp [List.dropWhile, hc]

/-- C6: `Folder f` returns nil and stores `f` without its leading slashes: `f`
is some number of `/` followed by the stored start folder, which does not begin
with `/`; applying `Folder` to its own result changes nothing; and a request
fresh from `NewFilesListRequest` has the empty start folder. -/
theorem Folder_spec (this : FilesListRequest) (f : Str) :
    (Folder this f).2 = none ∧
    (∃ k : Nat, f = List.replicate k '/' ++ (Folder this f).1.startFolder) ∧
    ¬ (['/'] <+: (Folder this f).1.startFolder) ∧
    Folder (Folder this f).1 (Folder this f).1.startFolder = Folder this f ∧
    (NewFilesListRequest this.accessKey this.secretKey this.bucketName
        this.regionName).startFolder = [] := by
  refine ⟨rfl, ⟨_, TrimLeft_slash_split f⟩, TrimLeft_slash_head f, ?_, rfl⟩
  simp [Folder, TrimLeft_idem]


end S3List

namespace S3List

/-! ## `ListFiles`: the validation sentinel -/

/-- C10: when the session is nil, or the session is not nil and the bucket name is
empty, the goroutine behind the channel returned by `ListFiles` sends exactly
one `ListResult`, whose `Err` is set and whose other fields are all unset,
then closes the channel, once; it makes no listing call. -/
theorem ListFiles_validation {σ : Type} (client : V2Client σ) (fuel : Nat) (st : σ)
    (sess : Option Session) (lr : ListRequest)
    (h : sess = none ∨ lr.BucketName = []) :
    ∃ r : ListResult,
      ListFiles client fuel st sess lr = some [.send r, .close] ∧
      r.Err ≠ none ∧ r.Key = none ∧ r.ETag = none ∧ r.Size = none ∧
      r.LastModified = none ∧ r.Owner = none ∧ r.StorageClass = none ∧
      r.ChecksumAlgorithm = [] ∧
      ∀ evs, ListFiles client fuel st sess lr = some evs →
        (∀ input, ChanEvent.call input ∉ evs) ∧ evs.count .close = 1 := by
  cases sess with
  | none =>
    refine ⟨{ Err := some "sess is nil".toList }, rfl, by simp, rfl, rfl, rfl, rfl, rfl, rfl,
      rfl, ?_⟩
    intro evs hevs
    simp only [ListFiles, Option.some.injEq] at hevs
    subst hevs
    simp
  | some sess =>
    have hb : lr.BucketName = [] := by
      rcases h with h | h
      · cases h
      · exact h
    refine ⟨{ Err := some "missing ListRequest.BucketName param".toList }, ?_, by simp,
      rfl, rfl, rfl, rfl, rfl, rfl, rfl, ?_⟩
    · simp [ListFiles, hb]
    · intro evs hevs
      simp only [ListFiles, hb, if_true, Option.some.injEq] at hevs
      subst hevs
      simp

/-- Witness for C10: the empty bucket name with a session, against a client that
would answer with one object. -/
theorem ListFiles_validation_witness :
    ((some (Session.mk 0) = none ∨ (ListRequest.mk [] "mfa/".toList).BucketName = []) ∧
    ∃ r : ListResult,
      ListFiles (fun (_ : Session) (u : Unit) (_ : ListObjectsV2Input) =>
          (u, some (ListObjectsV2Output.mk [] none), (none : GoError))) 3 ()
        (some (Session.mk 0)) (ListRequest.mk [] "mfa/".toList) = some [.send r, .close] ∧
      r.Err ≠ none ∧ r.Key = none ∧ r.ETag = none ∧ r.Size = none ∧
      r.LastModified = none ∧ r.Owner = none ∧ r.StorageClass = none ∧
      r.ChecksumAlgorithm = [] ∧
      ∀ evs, ListFiles (fun (_ : Session) (u : Unit) (_ : ListObjectsV2Input) =>
          (u, some (ListObjectsV2Output.mk [] none), (none : GoError))) 3 ()
        (some (Session.mk 0)) (ListRequest.mk [] "mfa/".toList) = some evs →
        (∀ input, ChanEvent.call input ∉ evs) ∧ evs.count .close = 1) :=
  ⟨Or.inr rfl, ListFiles_validation _ 3 () (some (Session.mk 0))
    (ListRequest.mk [] "mfa/".toList) (Or.inr rfl)⟩

/-! ## `Run`: what the validation checks -/

/-- C4 (the code at the failing input): a request with valid keys, a known region
and the empty bucket name passes the validation of `Run`, which goes on to
spawn its five workers. -/
theorem Run_accepts_empty_bucket :
    Run_validate (fun r => r == "us-east-1".toList)
        (NewFilesListRequest "AK".toList "SK".toList [] "us-east-1".toList) = none ∧
    (NewFilesListRequest "AK".toList "SK".toList [] "us-east-1".toList).bucketName = [] ∧
    ((Run_start (fun r => r == "us-east-1".toList)
        (NewFilesListRequest "AK".toList "SK".toList [] "us-east-1".toList) ()).toOption.map
      (fun s => s.listers)) = some (List.replicate 5 ListerPC.recv) := by
  refine ⟨by decide, rfl, by decide⟩

end S3List

namespace S3List

/-! ## One call of `listObjectsInBucket`: pagination -/

section RunLister
variable {σ : Type} (client : BucketClient σ)

lemma runLister_done (fuel : Nat) (st : σ) (acc : List Effect) :
    runLister client (fuel + 1) st .subFolders acc = some (acc, st) := by
  simp [runLister]

lemma runLister_sendFiles (f : Str) (r : ListResp) (st : σ) :
    ∀ (rest : List S3Key) (fuel : Nat) (acc : List Effect),
      runLister client (fuel + rest.length) st (.sendFiles f r rest) acc =
        runLister client fuel st (.sendFiles f r [])
          (acc ++ rest.map (fun file => Effect.sendFile ('/' :: file.Key))) := by
  intro rest
  induction rest with
  | nil => intro fuel acc; simp
  | cons k rest ih =>
    intro fuel acc
    have h : fuel + (k :: rest).length = (fuel + rest.length) + 1 := by simp; omega
    rw [h, runLister]
    simp only [reduceCtorEq, if_false, listerStep]
    rw [ih]
    simp

lemma runLister_sendFolders (f : Str) (r : ListResp) (st : σ) :
    ∀ (rest : List Str) (fuel : Nat) (acc : List Effect),
      runLister client (fuel + rest.length) st (.sendFolders f r rest) acc =
        runLister client fuel st (.sendFolders f r [])
          (acc ++ rest.map Effect.sendFolder) := by
  intro rest
  induction rest with
  | nil => intro fuel acc; simp
  | cons c rest ih =>
    intro fuel acc
    have h : fuel + (c :: rest).length = (fuel + rest.length) + 1 := by simp; omega
    rw [h, runLister]
    simp only [reduceCtorEq, if_false, listerStep]
    rw [ih]
    simp

lemma runLister_page (f m : Str) (st st' : σ) (pg : ListResp)
    (hc : client st f ['/'] m 1000 = (st', .ok pg)) (fuel : Nat) (acc : List Effect) :
    runLister client (fuel + pageFuel pg) st (.list f m) acc =
      runLister client fuel st'
        (if pg.IsTruncated = false then .subFolders else .list f pg.NextMarker)
        (acc ++ pageTrace f m pg) := by
  have e1 : fuel + pageFuel pg =
      ((((fuel + 1) + pg.Contents.length) + 1 + pg.CommonPrefixes.length) + 2) + 1 := by
    unfold pageFuel; omega
  rw [e1, runLister]
  simp only [reduceCtorEq, if_false, listerStep, hc]
  rw [runLister]
  simp only [reduceCtorEq, if_false, listerStep]
  rw [runLister]
  simp only [reduceCtorEq, if_false, listerStep]
  rw [runLister_sendFolders, runLister]
  simp only [reduceCtorEq, if_false, listerStep, if_true]
  rw [runLister_sendFiles, runLister]
  simp only [reduceCtorEq, if_false, listerStep, if_true]
  simp [pageTrace]

lemma runLister_pages (f : Str) :
    ∀ (ps : List ListResp) (m : Str) (st : σ), ServesPages client f st m ps →
      ∃ st', ∀ (fuel : Nat) (acc : List Effect),
        runLister client (fuel + 1 + pagesFuel ps) st (.list f m) acc =
          some (acc ++ pagesTrace f m ps, st') := by
  intro ps
  induction ps with
  | nil => intro m st h; exact absurd h (by simp [ServesPages])
  | cons pg ps ih =>
    intro m st h
    cases ps with
    | nil =>
      obtain ⟨st', hc, ht⟩ := h
      refine ⟨st', fun fuel acc => ?_⟩
      have e : fuel + 1 + pagesFuel [pg] = (fuel + 1) + pageFuel pg := by
        simp [pagesFuel]
      rw [e, runLister_page client f m st st' pg hc, if_pos ht, runLister_done]
      simp [pagesTrace]
    | cons pg' ps =>
      obtain ⟨st', hc, ht, hrest⟩ := h
      obtain ⟨st'', hrun⟩ := ih pg.NextMarker st' hrest
      refine ⟨st'', fun fuel acc => ?_⟩
      have e : fuel + 1 + pagesFuel (pg :: pg' :: ps) =
          (fuel + 1 + pagesFuel (pg' :: ps)) + pageFuel pg := by
        simp [pagesFuel]; omega
      rw [e, runLister_page client f m st st' pg hc, if_neg (by simp [ht]), hrun]
      simp [pagesTrace]

end RunLister

lemma sentFolders_append (a b : List Effect) :
    sentFolders (a ++ b) = sentFolders a ++ sentFolders b := by
  simp [sentFolders]

lemma sentFiles_append (a b : List Effect) :
    sentFiles (a ++ b) = sentFiles a ++ sentFiles b := by
  simp [sentFiles]

lemma requestedMarkers_append (a b : List Effect) :
    requestedMarkers (a ++ b) = requestedMarkers a ++ requestedMarkers b := by
  simp [requestedMarkers]

lemma sentFolders_map_sendFolder (l : List Str) :
    sentFolders (l.map Effect.sendFolder) = l := by
  induction l with
  | nil => rfl
  | cons c l ih => simpa [sentFolders] using ih

lemma sentFolders_map_sendFile (l : List S3Key) :
    sentFolders (l.map (fun file => Effect.sendFile ('/' :: file.Key))) = [] := by
  induction l with
  | nil => rfl
  | cons c l ih => simp [sentFolders, ih]

lemma sentFiles_map_sendFolder (l : List Str) :
    sentFiles (l.map Effect.sendFolder) = [] := by
  induction l with
  | nil => rfl
  | cons c l ih => simp [sentFiles, ih]

lemma sentFiles_map_sendFile (l : List S3Key) :
    sentFiles (l.map (fun file => Effect.sendFile ('/' :: file.Key))) =
      l.map (fun file => '/' :: file.Key) := by
  induction l with
  | nil => rfl
  | cons c l ih => simpa [sentFiles] using ih

lemma requestedMarkers_map_sendFolder (l : List Str) :
    requestedMarkers (l.map Effect.sendFolder) = [] := by
  induction l with
  | nil => rfl
  | cons c l ih => simp [requestedMarkers, ih]

lemma requestedMarkers_map_sendFile (l : List S3Key) :
    requestedMarkers (l.map (fun file => Effect.sendFile ('/' :: file.Key))) = [] := by
  induction l with
  | nil => rfl
  | cons c l ih => simp [requestedMarkers, ih]

lemma sentFolders_pagesTrace (f : Str) :
    ∀ (ps : List ListResp) (m : Str),
      sentFolders (pagesTrace f m ps) = ps.flatMap (fun pg => pg.CommonPrefixes) := by
  intro ps
  induction ps with
  | nil => intro m; rfl
  | cons pg ps ih =>
    intro m
    rw [pagesTrace, sentFolders_append, ih, pageTrace, sentFolders_append,
      sentFolders_append, sentFolders_map_sendFolder, sentFolders_map_sendFile]
    simp [sentFolders]

lemma sentFiles_pagesTrace (f : Str) :
    ∀ (ps : List ListResp) (m : Str),
      sentFiles (pagesTrace f m ps) =
        ps.flatMap (fun pg => pg.Contents.map (fun file => '/' :: file.Key)) := by
  intro ps
  induction ps with
  | nil => intro m; rfl
  | cons pg ps ih =>
    intro m
    rw [pagesTrace, sentFiles_append, ih, pageTrace, sentFiles_append,
      sentFiles_append, sentFiles_map_sendFolder, sentFiles_map_sendFile]
    simp [sentFiles]

lemma requestedMarkers_pagesTrace (f : Str) :
    ∀ (ps : List ListResp) (m : Str),
      requestedMarkers (pagesTrace f m ps) = pageMarkers m ps := by
  intro ps
  induction ps with
  | nil => intro m; rfl
  | cons pg ps ih =>
    intro m
    rw [pagesTrace, requestedMarkers_append, ih, pageTrace, requestedMarkers_append,
      requestedMarkers_append, requestedMarkers_map_sendFolder,
      requestedMarkers_map_sendFile]
    simp [requestedMarkers, pageMarkers]

/-- C8: if the listing of `folder` consists of the pages `ps` (at least one, all
but the last truncated, each requested with the previous page's `NextMarker`,
the first with the empty marker), then one call of `listObjectsInBucket`,
given enough fuel, returns, and its trace is page after page: the request, the
two counter updates, the page's common prefixes on `folder_out` in order, then
one entry per element of the page's contents on `file_out` in order.  So it
requests exactly those pages, sends exactly the concatenation of the pages'
common prefixes and one entry per content element, an earlier page's entries
before a later page's; an empty truncated page is a page like any other. -/
theorem listObjectsInBucket_pages {σ : Type} (client : BucketClient σ) (st : σ)
    (folder marker : Str) (ps : List ListResp)
    (h : ServesPages client folder st [] ps) :
    ∃ (N : Nat) (tr : List Effect) (st' : σ),
      (∀ fuel, N ≤ fuel →
        listObjectsInBucket client fuel st folder marker = some (tr, st')) ∧
      tr = pagesTrace folder [] ps ∧
      requestedMarkers tr = pageMarkers [] ps ∧
      (requestedMarkers tr).length = ps.length ∧
      sentFolders tr = ps.flatMap (fun pg => pg.CommonPrefixes) ∧
      sentFiles tr = ps.flatMap (fun pg => pg.Contents.map (fun file => '/' :: file.Key)) := by
  obtain ⟨st', hrun⟩ := runLister_pages client folder ps [] st h
  refine ⟨1 + pagesFuel ps, pagesTrace folder [] ps, st', ?_, rfl,
    requestedMarkers_pagesTrace folder ps [], ?_, sentFolders_pagesTrace folder ps [],
    sentFiles_pagesTrace folder ps []⟩
  · intro fuel hf
    obtain ⟨k, rfl⟩ : ∃ k, fuel = k + 1 + pagesFuel ps := ⟨fuel - (1 + pagesFuel ps), by omega⟩
    unfold listObjectsInBucket
    rw [hrun]
    simp
  · rw [requestedMarkers_pagesTrace]
    clear h hrun
    generalize ([] : Str) = m
    induction ps generalizing m with
    | nil => rfl
    | cons pg ps ih => simp [pageMarkers, ih]

end S3List

namespace S3List

/-- Witness for C8: a folder listed in three pages, the second one empty and
truncated. -/
theorem listObjectsInBucket_pages_witness :
    ServesPages (pureClient examplePages) "d/".toList () []
        [examplePages "d/".toList [], examplePages "d/".toList "m1".toList,
         examplePages "d/".toList "m2".toList] ∧
    ∃ (N : Nat) (tr : List Effect) (st' : Unit),
      (∀ fuel, N ≤ fuel →
        listObjectsInBucket (pureClient examplePages) fuel () "d/".toList [] =
          some (tr, st')) ∧
      tr = pagesTrace "d/".toList []
        [examplePages "d/".toList [], examplePages "d/".toList "m1".toList,
         examplePages "d/".toList "m2".toList] ∧
      requestedMarkers tr = pageMarkers []
        [examplePages "d/".toList [], examplePages "d/".toList "m1".toList,
         examplePages "d/".toList "m2".toList] ∧
      (requestedMarkers tr).length =
        [examplePages "d/".toList [], examplePages "d/".toList "m1".toList,
         examplePages "d/".toList "m2".toList].length ∧
      sentFolders tr =
        [examplePages "d/".toList [], examplePages "d/".toList "m1".toList,
         examplePages "d/".toList "m2".toList].flatMap (fun pg => pg.CommonPrefixes) ∧
      sentFiles tr =
        [examplePages "d/".toList [], examplePages "d/".toList "m1".toList,
         examplePages "d/".toList "m2".toList].flatMap
          (fun pg => pg.Contents.map (fun file => '/' :: file.Key)) :=
  ⟨⟨(), rfl, rfl, (), rfl, rfl, (), rfl, rfl⟩,
   listObjectsInBucket_pages (pureClient examplePages) () "d/".toList []
    [examplePages "d/".toList [], examplePages "d/".toList "m1".toList,
     examplePages "d/".toList "m2".toList] ⟨(), rfl, rfl, (), rfl, rfl, (), rfl, rfl⟩⟩


end S3List

namespace S3List

/-! ## One call of `listObjectsInBucket`: retries -/

lemma runLister_acc {σ : Type} (client : BucketClient σ) :
    ∀ (fuel : Nat) (st : σ) (pc : ListerPC) (acc : List Effect),
      runLister client fuel st pc acc =
        (runLister client fuel st pc []).map (fun r => (acc ++ r.1, r.2)) := by
  intro fuel
  induction fuel with
  | zero => intro st pc acc; simp [runLister]
  | succ fuel ih =>
    intro st pc acc
    rw [runLister, runLister]
    by_cases hpc : pc = .subFolders
    · simp [hpc]
    · simp only [if_neg hpc]
      cases hs : listerStep client st pc with
      | none => simp
      | some r =>
        obtain ⟨eff, pc', st'⟩ := r
        simp only
        rw [ih st' pc' (if eff = Effect.tau then acc else acc ++ [eff]),
          ih st' pc' (if eff = Effect.tau then [] else [] ++ [eff])]
        by_cases he : eff = .tau
        · simp [he]
        · simp [he, Option.map_map, Function.comp_def]

lemma withRetries_nil_sched (tr : List Effect) : withRetries [] tr = tr := by
  induction tr with
  | nil => rfl
  | cons e tr ih => rw [withRetries, ih]

lemma withRetries_cons_other (sched : List Nat) (e : Effect) (tr : List Effect)
    (he : ∀ f d m n, e ≠ .call f d m n true) :
    withRetries sched (e :: tr) = e :: withRetries sched tr := by
  cases sched with
  | nil => rw [withRetries]
  | cons n rest =>
    cases e with
    | call f d m k ok =>
      cases ok with
      | true => exact absurd rfl (he f d m k)
      | false => rw [withRetries]; intro _ _ _ _ h; cases h
    | _ => rw [withRetries]; intro _ _ _ _ h; cases h

lemma withRetries_filterMap {α : Type} (g : Effect → Option α)
    (hg : ∀ f d m n, g (.call f d m n false) = none) :
    ∀ (tr : List Effect) (sched : List Nat),
      (withRetries sched tr).filterMap g = tr.filterMap g := by
  intro tr
  induction tr with
  | nil => intro sched; cases sched <;> rfl
  | cons e tr ih =>
    intro sched
    cases sched with
    | nil => rw [withRetries_nil_sched]
    | cons n rest =>
      by_cases he : ∃ f d m k, e = .call f d m k true
      · obtain ⟨f, d, m, k, rfl⟩ := he
        rw [withRetries, List.filterMap_append, List.filterMap_cons, List.filterMap_cons, ih]
        have : (List.replicate n (Effect.call f d m k false)).filterMap g = [] := by
          rw [List.filterMap_eq_nil_iff]
          intro x hx
          rw [List.eq_of_mem_replicate hx]
          exact hg f d m k
        rw [this]
        rfl
      · have he' : ∀ f d m k, e ≠ .call f d m k true := by
          intro f d m k h; exact he ⟨f, d, m, k, h⟩
        rw [withRetries_cons_other _ _ _ he', List.filterMap_cons, List.filterMap_cons, ih]

lemma withRetries_filter (p : Effect → Bool)
    (hp : ∀ f d m n, p (.call f d m n false) = false) (tr : List Effect) (sched : List Nat) :
    (withRetries sched tr).filter p = tr.filter p := by
  rw [← List.filterMap_eq_filter]
  apply withRetries_filterMap
  intro f d m n
  simp [Option.guard, hp]

lemma flaky_retry (list : Str → Str → ListResp) (f m : Str) (rest : List Nat) :
    ∀ (n fuel : Nat) (acc : List Effect),
      runLister (flakyClient list) (fuel + n + 1) (n :: rest) (.list f m) acc =
        runLister (flakyClient list) fuel rest (.addFolders f (list f m))
          (acc ++ List.replicate n (Effect.call f ['/'] m 1000 false) ++
            [Effect.call f ['/'] m 1000 true]) := by
  intro n
  induction n with
  | zero =>
    intro fuel acc
    rw [runLister]
    simp [listerStep, flakyClient]
  | succ n ih =>
    intro fuel acc
    have e : fuel + (n + 1) + 1 = (fuel + n + 1) + 1 := by omega
    rw [e, runLister]
    simp only [reduceCtorEq, if_false, listerStep, flakyClient]
    rw [ih]
    simp [List.replicate_succ]

lemma listerStep_local (pc : ListerPC) (h1 : pc ≠ .recv) (h2 : pc ≠ .subFolders)
    (h3 : ∀ f m, pc ≠ .list f m) :
    ∃ eff pc', (∀ {σ : Type} (client : BucketClient σ) (st : σ),
        listerStep client st pc = some (eff, pc', st)) ∧
      ∀ f d m n b, eff ≠ .call f d m n b := by
  cases pc with
  | recv => exact absurd rfl h1
  | subFolders => exact absurd rfl h2
  | list f m => exact absurd rfl (h3 f m)
  | addFolders f r => exact ⟨_, _, fun _ _ => rfl, by intros; simp⟩
  | addFiles f r => exact ⟨_, _, fun _ _ => rfl, by intros; simp⟩
  | sendFolders f r rest =>
    cases rest with
    | nil => exact ⟨_, _, fun _ _ => rfl, by intros; simp⟩
    | cons c rest => exact ⟨_, _, fun _ _ => rfl, by intros; simp⟩
  | sendFiles f r rest =>
    cases rest with
    | nil => exact ⟨_, _, fun _ _ => rfl, by intros; simp⟩
    | cons c rest => exact ⟨_, _, fun _ _ => rfl, by intros; simp⟩

lemma flaky_run (list : Str → Str → ListResp) :
    ∀ (fuel : Nat) (pc : ListerPC) (tr : List Effect) (st' : List Nat),
      runLister (flakyClient list) fuel [] pc [] = some (tr, st') →
      ∀ sched : List Nat, ∃ (N : Nat) (st'' : List Nat), ∀ fuel', N ≤ fuel' →
        runLister (flakyClient list) fuel' sched pc [] =
          some (withRetries sched tr, st'') := by
  intro fuel
  induction fuel with
  | zero => intro pc tr st' h; simp [runLister] at h
  | succ fuel ih =>
    intro pc tr st' h sched
    by_cases hsub : pc = .subFolders
    · subst hsub
      simp only [runLister, if_true, Option.some.injEq, Prod.mk.injEq] at h
      obtain ⟨rfl, -⟩ := h
      refine ⟨1, sched, fun fuel' hf => ?_⟩
      obtain ⟨k, rfl⟩ : ∃ k, fuel' = k + 1 := ⟨fuel' - 1, by omega⟩
      rw [runLister_done]
      cases sched <;> rfl
    by_cases hrecv : pc = .recv
    · subst hrecv
      simp [runLister, listerStep] at h
    by_cases hlist : ∃ f m, pc = .list f m
    · obtain ⟨f, m, rfl⟩ := hlist
      rw [runLister] at h
      simp only [reduceCtorEq, if_false, listerStep, flakyClient] at h
      rw [runLister_acc] at h
      cases hrun : runLister (flakyClient list) fuel [] (.addFolders f (list f m)) [] with
      | none => simp [hrun] at h
      | some r =>
        obtain ⟨tr₁, st₁⟩ := r
        simp only [hrun, Option.map_some', Option.some.injEq, Prod.mk.injEq] at h
        obtain ⟨rfl, -⟩ := h
        cases sched with
        | nil =>
          obtain ⟨N, st'', hN⟩ := ih _ _ _ hrun []
          refine ⟨N + 1, st'', fun fuel' hf => ?_⟩
          obtain ⟨k, rfl⟩ : ∃ k, fuel' = k + 1 := ⟨fuel' - 1, by omega⟩
          rw [runLister]
          simp only [reduceCtorEq, if_false, listerStep, flakyClient]
          rw [runLister_acc, hN k (by omega)]
          simp [withRetries_nil_sched]
        | cons n rest =>
          obtain ⟨N, st'', hN⟩ := ih _ _ _ hrun rest
          refine ⟨N + n + 1, st'', fun fuel' hf => ?_⟩
          obtain ⟨k, rfl⟩ : ∃ k, fuel' = k + n + 1 := ⟨fuel' - (n + 1), by omega⟩
          rw [flaky_retry, runLister_acc, hN k (by omega)]
          simp [withRetries]
    · have hlist' : ∀ f m, pc ≠ .list f m := fun f m e => hlist ⟨f, m, e⟩
      obtain ⟨eff, pc', hstep, hcall⟩ := listerStep_local pc hrecv hsub hlist'
      rw [runLister] at h
      simp only [if_neg hsub, hstep] at h
      rw [runLister_acc] at h
      cases hrun : runLister (flakyClient list) fuel [] pc' [] with
      | none => simp [hrun] at h
      | some r =>
        obtain ⟨tr₁, st₁⟩ := r
        simp only [hrun, Option.map_some', Option.some.injEq, Prod.mk.injEq] at h
        obtain ⟨rfl, -⟩ := h
        obtain ⟨N, st'', hN⟩ := ih _ _ _ hrun sched
        refine ⟨N + 1, st'', fun fuel' hf => ?_⟩
        obtain ⟨k, rfl⟩ : ∃ k, fuel' = k + 1 := ⟨fuel' - 1, by omega⟩
        rw [runLister]
        simp only [if_neg hsub, hstep]
        rw [runLister_acc, hN k (by omega)]
        by_cases he : eff = .tau
        · simp [he]
        · simp only [if_neg he, List.nil_append, Option.map_some', List.singleton_append]
          rw [withRetries_cons_other _ _ _ (fun f d m n => hcall f d m n true)]

/-- C9: take a mock that answers from `list` and never fails, and a call of
`listObjectsInBucket` that returns with trace `tr` against it.  Against the
mock that first returns, for the successive page requests, the numbers of
transport errors given by any schedule `sched`, the call also returns (given
enough fuel), and its trace is `tr` with, before each successful request, that
many failed copies of the very same request (same folder, delimiter, marker
and limit).  Hence the prefixes sent on `folder_out`, the entries sent on
`file_out` and the counter updates are those of the run without failures, and
nothing else is sent on `file_out`. -/
theorem listObjectsInBucket_retries (list : Str → Str → ListResp) (folder marker : Str)
    (sched : List Nat) (fuel : Nat) (tr : List Effect) (st' : List Nat)
    (h : listObjectsInBucket (flakyClient list) fuel [] folder marker = some (tr, st')) :
    ∃ (N : Nat) (tr' : List Effect) (st'' : List Nat),
      (∀ fuel', N ≤ fuel' →
        listObjectsInBucket (flakyClient list) fuel' sched folder marker = some (tr', st'')) ∧
      tr' = withRetries sched tr ∧
      tr'.filter (fun e => !isFailedCall e) = tr.filter (fun e => !isFailedCall e) ∧
      sentFolders tr' = sentFolders tr ∧
      sentFiles tr' = sentFiles tr ∧
      counterUpdates tr' = counterUpdates tr := by
  obtain ⟨N, st'', hN⟩ := flaky_run list fuel _ tr st' h sched
  refine ⟨N, withRetries sched tr, st'', hN, rfl, ?_, ?_, ?_, ?_⟩
  · exact withRetries_filter _ (fun _ _ _ _ => rfl) tr sched
  · exact withRetries_filterMap _ (fun _ _ _ _ => rfl) tr sched
  · exact withRetries_filterMap _ (fun _ _ _ _ => rfl) tr sched
  · exact withRetries_filter _ (fun _ _ _ _ => rfl) tr sched

/-- Witness for C9: the three-page folder of the example, the first request
failing twice and the third once. -/
theorem listObjectsInBucket_retries_witness :
    listObjectsInBucket (flakyClient examplePages) 30 [] "d/".toList [] =
      some (pagesTrace "d/".toList []
        [examplePages "d/".toList [], examplePages "d/".toList "m1".toList,
         examplePages "d/".toList "m2".toList], []) ∧
    ∃ (N : Nat) (tr' : List Effect) (st'' : List Nat),
      (∀ fuel', N ≤ fuel' →
        listObjectsInBucket (flakyClient examplePages) fuel' [2, 0, 1] "d/".toList [] =
          some (tr', st'')) ∧
      tr' = withRetries [2, 0, 1] (pagesTrace "d/".toList []
        [examplePages "d/".toList [], examplePages "d/".toList "m1".toList,
         examplePages "d/".toList "m2".toList]) ∧
      tr'.filter (fun e => !isFailedCall e) =
        (pagesTrace "d/".toList []
          [examplePages "d/".toList [], examplePages "d/".toList "m1".toList,
           examplePages "d/".toList "m2".toList]).filter (fun e => !isFailedCall e) ∧
      sentFolders tr' = sentFolders (pagesTrace "d/".toList []
        [examplePages "d/".toList [], examplePages "d/".toList "m1".toList,
         examplePages "d/".toList "m2".toList]) ∧
      sentFiles tr' = sentFiles (pagesTrace "d/".toList []
        [examplePages "d/".toList [], examplePages "d/".toList "m1".toList,
         examplePages "d/".toList "m2".toList]) ∧
      counterUpdates tr' = counterUpdates (pagesTrace "d/".toList []
        [examplePages "d/".toList [], examplePages "d/".toList "m1".toList,
         examplePages "d/".toList "m2".toList]) :=
  ⟨by decide, listObjectsInBucket_retries examplePages "d/".toList [] [2, 0, 1] 30 _ []
    (by decide)⟩

end S3List

namespace S3List

/-! ## The engine: every step is one of the listed kinds -/

lemma getElem?_split {α : Type} :
    ∀ (l : List α) (i : Nat) (x : α), l[i]? = some x →
      ∃ L₁ L₂, l = L₁ ++ x :: L₂ ∧ ∀ y, l.set i y = L₁ ++ y :: L₂ := by
  intro l
  induction l with
  | nil => intro i x h; simp at h
  | cons a l ih =>
    intro i x h
    cases i with
    | zero =>
      simp only [List.getElem?_cons_zero, Option.some.injEq] at h
      subst h
      exact ⟨[], l, rfl, fun y => rfl⟩
    | succ i =>
      simp only [List.getElem?_cons_succ] at h
      obtain ⟨L₁, L₂, h1, h2⟩ := ih i x h
      refine ⟨a :: L₁, L₂, by simp [h1], fun y => ?_⟩
      simp [List.set, h2]

lemma step_sound {σ : Type} (client : BucketClient σ) (s s' : State σ) (a : Action)
    (h : step client s a = some s') : Step client s (works client s a) s' := by
  cases a with
  | run =>
    simp only [step] at h
    cases hr : s.run with
    | addFolders =>
      simp only [hr] at h
      by_cases hl : s.locked = true
      · simp [hl] at h
      · rw [if_neg hl] at h
        simp only [Option.some.injEq] at h
        subst h
        have : works client s .run = true := by simp [works, hr]
        rw [this]
        exact Step.runAddFolders s hr (by simpa using hl)
    | seed => simp [hr] at h
    | poll =>
      simp only [hr] at h
      by_cases hl : s.locked = true
      · simp [hl] at h
      · rw [if_neg hl] at h
        by_cases hq : s.Folders = 0 ∧ s.Files = 0
        · rw [if_pos hq] at h
          simp only [Option.some.injEq] at h
          subst h
          have : works client s .run = true := by simp [works, hq]
          rw [this]
          exact Step.runReturn s hr (by simpa using hl) hq
        · rw [if_neg hq] at h
          simp only [Option.some.injEq] at h
          subst h
          have : works client s .run = false := by
            simp only [works, hr, ne_eq, not_true_eq_false, false_or, decide_eq_false_iff_not]
            exact hq
          rw [this]
          exact Step.runPollBusy s hr (by simpa using hl) hq
    | returned => simp [hr] at h
  | seed i =>
    simp only [step] at h
    by_cases hc : s.run = .seed ∧ s.listers[i]? = some .recv
    · simp only [hc, and_self, if_true, Option.some.injEq] at h
      subst h
      obtain ⟨L₁, L₂, h1, h2⟩ := getElem?_split _ _ _ hc.2
      rw [h2]
      exact Step.seed s L₁ L₂ hc.1 h1
    · simp [hc] at h
  | lister i =>
    simp only [step] at h
    cases hi : s.listers[i]? with
    | none => simp [hi] at h
    | some pc =>
      simp only [hi] at h
      obtain ⟨L₁, L₂, h1, h2⟩ := getElem?_split _ _ _ hi
      cases pc with
      | recv => simp [listerStep] at h
      | list f m =>
        simp only [listerStep] at h
        cases hc : client s.client f ['/'] m 1000 with
        | mk st' res =>
          cases res with
          | error e =>
            simp only [hc, applyEffect, Option.some.injEq] at h
            subst h
            have hw : works client s (.lister i) = false := by simp [works, hi, hc]
            have hset : s.listers.set i (.list f m) = s.listers := by
              rw [h2, h1]
            rw [hw, hset]
            exact Step.callErr s L₁ L₂ f m st' e h1 hc
          | ok r =>
            simp only [hc, applyEffect, Option.some.injEq] at h
            subst h
            have hw : works client s (.lister i) = true := by simp [works, hi, hc]
            rw [hw, h2]
            exact Step.callOk s L₁ L₂ f m st' r h1 hc
      | addFolders f r =>
        have hw : works client s (.lister i) = true := by simp [works, hi]
        simp only [listerStep, applyEffect] at h
        by_cases hl : s.locked = true
        · simp [hl] at h
        · rw [if_neg hl] at h
          simp only [Option.some.injEq] at h
          subst h
          rw [hw, h2]
          exact Step.addFolders s L₁ L₂ f r h1 (by simpa using hl)
      | addFiles f r =>
        have hw : works client s (.lister i) = true := by simp [works, hi]
        simp only [listerStep, applyEffect] at h
        by_cases hl : s.locked = true
        · simp [hl] at h
        · rw [if_neg hl] at h
          simp only [Option.some.injEq] at h
          subst h
          rw [hw, h2]
          exact Step.addFiles s L₁ L₂ f r h1 (by simpa using hl)
      | sendFolders f r rest =>
        have hw : works client s (.lister i) = true := by simp [works, hi]
        cases rest with
        | nil =>
          simp only [listerStep, applyEffect, Option.some.injEq] at h
          subst h
          rw [hw, h2]
          exact Step.foldersDone s L₁ L₂ f r h1
        | cons c rest =>
          simp only [listerStep, applyEffect] at h
          by_cases hp : s.pump = .recvSel
          · simp only [hp, if_true, Option.some.injEq] at h
            subst h
            rw [hw, h2]
            exact Step.sendFolder s L₁ L₂ f r c rest h1 hp
          · simp [hp] at h
      | sendFiles f r rest =>
        have hw : works client s (.lister i) = true := by simp [works, hi]
        cases rest with
        | nil =>
          simp only [listerStep, applyEffect, Option.some.injEq] at h
          subst h
          rw [hw, h2]
          exact Step.filesDone s L₁ L₂ f r h1
        | cons k rest =>
          simp only [listerStep, applyEffect] at h
          by_cases hf : s.forwarder = .recv
          · simp only [hf, if_true, Option.some.injEq] at h
            subst h
            rw [hw, h2]
            exact Step.sendFile s L₁ L₂ f r k rest h1 hf
          · simp [hf] at h
      | subFolders =>
        have hw : works client s (.lister i) = true := by simp [works, hi]
        simp only [listerStep, applyEffect] at h
        by_cases hl : s.locked = true
        · simp [hl] at h
        · rw [if_neg hl] at h
          simp only [Option.some.injEq] at h
          subst h
          rw [hw, h2]
          exact Step.subFolders s L₁ L₂ h1 (by simpa using hl)
  | forwarder =>
    simp only [step] at h
    cases hf : s.forwarder with
    | recv => simp [hf] at h
    | send x =>
      simp only [hf, Option.some.injEq] at h
      subst h
      exact Step.forward s x hf
    | subFiles =>
      simp only [hf] at h
      by_cases hl : s.locked = true
      · simp [hl] at h
      · rw [if_neg hl] at h
        simp only [Option.some.injEq] at h
        subst h
        exact Step.subFiles s hf (by simpa using hl)
  | pumpSkipRecv =>
    simp only [step] at h
    by_cases hp : s.pump = .recvSel
    · simp only [hp, if_true, Option.some.injEq] at h
      subst h
      exact Step.pumpSkipRecv s hp
    · simp [hp] at h
  | pumpOffer i =>
    simp only [step] at h
    by_cases hc : s.pump = .offerSel ∧ s.listers[i]? = some .recv
    · simp only [hc, and_self, if_true] at h
      obtain ⟨L₁, L₂, h1, h2⟩ := getElem?_split _ _ _ hc.2
      cases hq : s.queue with
      | nil => simp [hq] at h
      | cons c rest =>
        simp only [hq, Option.some.injEq] at h
        subst h
        rw [h2]
        exact Step.pumpOffer s L₁ L₂ c rest hc.1 hq h1
    · simp [hc] at h
  | pumpSkipOffer =>
    simp only [step] at h
    by_cases hp : s.pump = .offerSel
    · simp only [hp, if_true, Option.some.injEq] at h
      subst h
      exact Step.pumpSkipOffer s hp
    · simp [hp] at h

/-- Induction over the reachable states. -/
lemma reachable_induction {σ : Type} (client : BucketClient σ) (P : State σ → Prop)
    (hstep : ∀ s w s', P s → Step client s w s' → P s') :
    ∀ (as : List Action) (s₀ s : State σ), P s₀ → exec client s₀ as = some s → P s := by
  intro as
  induction as with
  | nil =>
    intro s₀ s h0 h
    simp only [exec, Option.some.injEq] at h
    exact h ▸ h0
  | cons a as ih =>
    intro s₀ s h0 h
    simp only [exec] at h
    cases hs : step client s₀ a with
    | none => simp [hs] at h
    | some s₁ =>
      simp only [hs] at h
      exact ih s₁ s (hstep _ _ _ h0 (step_sound client _ _ _ hs)) h

end S3List

namespace S3List

/-! ## The engine: the counters and the bookkeeping invariant -/

lemma heldFolders_nonneg (pc : ListerPC) : 0 ≤ pc.heldFolders := by
  cases pc <;> simp [ListerPC.heldFolders] <;> omega

lemma heldFiles_nonneg (pc : ListerPC) : 0 ≤ pc.heldFiles := by
  cases pc <;> simp [ListerPC.heldFiles]

lemma heldFolders_eq_zero (pc : ListerPC) (h : pc.heldFolders = 0) : pc = .recv := by
  cases pc <;> simp [ListerPC.heldFolders] at h ⊢ <;> omega

lemma sum_heldFolders_nonneg (L : List ListerPC) : 0 ≤ (L.map ListerPC.heldFolders).sum := by
  induction L with
  | nil => simp
  | cons pc L ih => simp only [List.map_cons, List.sum_cons]; have := heldFolders_nonneg pc; omega

lemma sum_heldFiles_nonneg (L : List ListerPC) : 0 ≤ (L.map ListerPC.heldFiles).sum := by
  induction L with
  | nil => simp
  | cons pc L ih => simp only [List.map_cons, List.sum_cons]; have := heldFiles_nonneg pc; omega

lemma sum_heldFolders_eq_zero (L : List ListerPC) (h : (L.map ListerPC.heldFolders).sum = 0) :
    ∀ pc ∈ L, pc = .recv := by
  induction L with
  | nil => simp
  | cons pc L ih =>
    simp only [List.map_cons, List.sum_cons] at h
    have h1 := heldFolders_nonneg pc
    have h2 := sum_heldFolders_nonneg L
    intro q hq
    rcases List.mem_cons.1 hq with rfl | hq
    · exact heldFolders_eq_zero _ (by omega)
    · exact ih (by omega) q hq

lemma sum_heldFolders_replicate (n : Nat) :
    ((List.replicate n ListerPC.recv).map ListerPC.heldFolders).sum = 0 := by
  induction n with
  | zero => rfl
  | succ n ih => simp [List.replicate_succ, ListerPC.heldFolders, ih]

lemma sum_heldFiles_replicate (n : Nat) :
    ((List.replicate n ListerPC.recv).map ListerPC.heldFiles).sum = 0 := by
  induction n with
  | zero => rfl
  | succ n ih => simp [List.replicate_succ, ListerPC.heldFiles, ih]

lemma Inv_init {σ : Type} (this : FilesListRequest) (st : σ) :
    Inv this.concurrencyLevel.toNat this.startFolder (Run_init this st) := by
  constructor <;>
    simp [Run_init, outstandingFolders, outstandingFiles, sum_heldFolders_replicate,
      sum_heldFiles_replicate, ListerPC.heldFolders, ListerPC.heldFiles]

/-- While `Run` has not yet handed over the start folder, every worker is blocked
in its receive. -/
lemma busy_running {σ : Type} {n : Nat} {p : Str} (s : State σ) (hI : Inv n p s)
    {L₁ L₂ : List ListerPC} {pc : ListerPC} (hL : s.listers = L₁ ++ pc :: L₂)
    (hpc : pc ≠ .recv) : s.run ≠ .addFolders ∧ s.run ≠ .seed := by
  have h5 := hI.folders
  have hA := sum_heldFolders_nonneg L₁
  have hB := sum_heldFolders_nonneg L₂
  have hp := heldFolders_nonneg pc
  have hp' : pc.heldFolders ≠ 0 := fun h => hpc (heldFolders_eq_zero pc h)
  simp only [outstandingFolders, hL, List.map_append, List.map_cons, List.sum_append,
    List.sum_cons] at h5
  constructor
  · intro hr
    have := (hI.fresh hr).1
    simp only [hr, reduceCtorEq, if_false] at h5
    omega
  · intro hr
    have := (hI.seeding hr).1
    simp only [hr, if_true] at h5
    omega

lemma forwarding_running {σ : Type} {n : Nat} {p : Str} (s : State σ) (hI : Inv n p s)
    (hf : s.forwarder ≠ .recv) : s.run ≠ .addFolders ∧ s.run ≠ .seed := by
  have h6 := hI.files
  have hA := sum_heldFiles_nonneg s.listers
  have hx : 1 ≤ s.Files := by
    simp only [outstandingFiles] at h6
    cases hfw : s.forwarder with
    | recv => exact absurd hfw hf
    | send x => simp only [hfw, reduceCtorEq, if_false] at h6; omega
    | subFiles => simp only [hfw, if_true] at h6; omega
  constructor
  · intro hr
    have := (hI.fresh hr).2.1
    omega
  · intro hr
    have := (hI.seeding hr).2.1
    omega

lemma queued_running {σ : Type} {n : Nat} {p : Str} (s : State σ) (hI : Inv n p s)
    (hq : s.queue ≠ []) : s.run ≠ .addFolders ∧ s.run ≠ .seed := by
  have h5 := hI.folders
  have hA := sum_heldFolders_nonneg s.listers
  have hq' : 1 ≤ (s.queue.length : Int) := by
    cases hh : s.queue with
    | nil => exact absurd hh hq
    | cons c rest => simp
  simp only [outstandingFolders] at h5
  constructor
  · intro hr
    have := (hI.fresh hr).1
    simp only [hr, reduceCtorEq, if_false] at h5
    omega
  · intro hr
    have := (hI.seeding hr).1
    simp only [hr, if_true] at h5
    omega

lemma Inv_step {σ : Type} (client : BucketClient σ) (n : Nat) (p : Str)
    (s : State σ) (w : Bool) (s' : State σ) (hI : Inv n p s) (hs : Step client s w s') :
    Inv n p s' := by
  obtain ⟨h1, h2, h3, h4, h5, h6, h7, h8, h9⟩ := hI
  have hI : Inv n p s := ⟨h1, h2, h3, h4, h5, h6, h7, h8, h9⟩
  have hlk : s.locked = false → s.run ≠ .returned := by
    intro hl hr
    rw [h4.2 hr] at hl
    exact absurd hl (by simp)
  cases hs with
  | runAddFolders hr hl =>
    obtain ⟨a, b, c⟩ := h7 hr
    have e5 := h5
    simp only [outstandingFolders, hr, reduceCtorEq, if_false] at e5
    refine ⟨h1, h2, h3, ?_, ?_, h6, ?_, ?_, ?_⟩
    · simp [hl]
    · dsimp only [outstandingFolders]
      simp only [if_true]
      omega
    · intro hr'; cases hr'
    · intro _; exact ⟨by dsimp only; omega, b, c⟩
    · intro hr'; cases hr'
  | runPollBusy hr hl hb => exact hI
  | runReturn hr hl hq =>
    have e5 := h5
    simp only [outstandingFolders, hr, reduceCtorEq, if_false] at e5
    refine ⟨h1, h2, h3, ?_, ?_, h6, ?_, ?_, ?_⟩
    · simp
    · dsimp only [outstandingFolders]
      simp only [reduceCtorEq, if_false]
      omega
    · intro hr'; cases hr'
    · intro hr'; cases hr'
    · intro _; exact hq
  | seed L₁ L₂ hr hL =>
    obtain ⟨a, b, c⟩ := h8 hr
    have e5 := h5
    have e6 := h6
    simp only [outstandingFolders, outstandingFiles, hr, hL, if_true, List.map_append, List.map_cons, List.sum_append, List.sum_cons, ListerPC.heldFolders, ListerPC.heldFiles, List.length_append, List.length_cons, List.length_nil, Nat.cast_add, Nat.cast_one, Nat.cast_zero] at e5 e6
    refine ⟨h1, by rw [← h2, hL]; simp, h3, ?_, ?_, ?_, ?_, ?_, ?_⟩
    · have : s.locked = false := by
        cases hlk' : s.locked with
        | false => rfl
        | true => rw [h4.1 hlk'] at hr; cases hr
      simp [this]
    · dsimp only [outstandingFolders]
      simp only [reduceCtorEq, if_false, List.map_append, List.map_cons, List.sum_append, List.sum_cons, ListerPC.heldFolders, ListerPC.heldFiles, List.length_append, List.length_cons, List.length_nil, Nat.cast_add, Nat.cast_one, Nat.cast_zero]
      omega
    · dsimp only [outstandingFiles]
      simp only [List.map_append, List.map_cons, List.sum_append, List.sum_cons, ListerPC.heldFolders, ListerPC.heldFiles, List.length_append, List.length_cons, List.length_nil, Nat.cast_add, Nat.cast_one, Nat.cast_zero]
      omega
    · intro hr'; cases hr'
    · intro hr'; cases hr'
    · intro hr'; cases hr'
  | callErr L₁ L₂ f m st' e hL hc => exact ⟨h1, h2, h3, h4, h5, h6, h7, h8, h9⟩
  | callOk L₁ L₂ f m st' r hL hc =>
    have hb := busy_running s hI hL (by simp)
    have e5 := h5
    have e6 := h6
    have hA := sum_heldFolders_nonneg L₁
    have hB := sum_heldFolders_nonneg L₂
    simp only [outstandingFolders, outstandingFiles, hL, List.map_append, List.map_cons, List.sum_append, List.sum_cons, ListerPC.heldFolders, ListerPC.heldFiles, List.length_append, List.length_cons, List.length_nil, Nat.cast_add, Nat.cast_one, Nat.cast_zero] at e5 e6
    refine ⟨h1, by rw [← h2, hL]; simp, h3, h4, ?_, ?_, fun hr => absurd hr hb.1,
      fun hr => absurd hr hb.2, h9⟩
    · dsimp only [outstandingFolders]
      simp only [List.map_append, List.map_cons, List.sum_append, List.sum_cons, ListerPC.heldFolders, ListerPC.heldFiles, List.length_append, List.length_cons, List.length_nil, Nat.cast_add, Nat.cast_one, Nat.cast_zero]
      omega
    · dsimp only [outstandingFiles]
      simp only [List.map_append, List.map_cons, List.sum_append, List.sum_cons, ListerPC.heldFolders, ListerPC.heldFiles, List.length_append, List.length_cons, List.length_nil, Nat.cast_add, Nat.cast_one, Nat.cast_zero]
      omega
  | addFolders L₁ L₂ f r hL hl =>
    have hb := busy_running s hI hL (by simp)
    have e5 := h5
    have e6 := h6
    have hA := sum_heldFolders_nonneg L₁
    have hB := sum_heldFolders_nonneg L₂
    simp only [outstandingFolders, outstandingFiles, hL, List.map_append, List.map_cons, List.sum_append, List.sum_cons, ListerPC.heldFolders, ListerPC.heldFiles, List.length_append, List.length_cons, List.length_nil, Nat.cast_add, Nat.cast_one, Nat.cast_zero] at e5 e6
    refine ⟨h1, by rw [← h2, hL]; simp, h3, h4, ?_, ?_, fun hr => absurd hr hb.1,
      fun hr => absurd hr hb.2, fun hr => absurd hr (hlk hl)⟩
    · dsimp only [outstandingFolders]
      simp only [List.map_append, List.map_cons, List.sum_append, List.sum_cons, ListerPC.heldFolders, ListerPC.heldFiles, List.length_append, List.length_cons, List.length_nil, Nat.cast_add, Nat.cast_one, Nat.cast_zero]
      omega
    · dsimp only [outstandingFiles]
      simp only [List.map_append, List.map_cons, List.sum_append, List.sum_cons, ListerPC.heldFolders, ListerPC.heldFiles, List.length_append, List.length_cons, List.length_nil, Nat.cast_add, Nat.cast_one, Nat.cast_zero]
      omega
  | addFiles L₁ L₂ f r hL hl =>
    have hb := busy_running s hI hL (by simp)
    have e5 := h5
    have e6 := h6
    have hA := sum_heldFolders_nonneg L₁
    have hB := sum_heldFolders_nonneg L₂
    simp only [outstandingFolders, outstandingFiles, hL, List.map_append, List.map_cons, List.sum_append, List.sum_cons, ListerPC.heldFolders, ListerPC.heldFiles, List.length_append, List.length_cons, List.length_nil, Nat.cast_add, Nat.cast_one, Nat.cast_zero] at e5 e6
    refine ⟨h1, by rw [← h2, hL]; simp, h3, h4, ?_, ?_, fun hr => absurd hr hb.1,
      fun hr => absurd hr hb.2, fun hr => absurd hr (hlk hl)⟩
    · dsimp only [outstandingFolders]
      simp only [List.map_append, List.map_cons, List.sum_append, List.sum_cons, ListerPC.heldFolders, ListerPC.heldFiles, List.length_append, List.length_cons, List.length_nil, Nat.cast_add, Nat.cast_one, Nat.cast_zero]
      omega
    · dsimp only [outstandingFiles]
      simp only [List.map_append, List.map_cons, List.sum_append, List.sum_cons, ListerPC.heldFolders, ListerPC.heldFiles, List.length_append, List.length_cons, List.length_nil, Nat.cast_add, Nat.cast_one, Nat.cast_zero]
      omega
  | sendFolder L₁ L₂ f r c rest hL hp =>
    have hb := busy_running s hI hL (by simp)
    have e5 := h5
    have e6 := h6
    have hA := sum_heldFolders_nonneg L₁
    have hB := sum_heldFolders_nonneg L₂
    simp only [outstandingFolders, outstandingFiles, hL, List.map_append, List.map_cons, List.sum_append, List.sum_cons, ListerPC.heldFolders, ListerPC.heldFiles, List.length_append, List.length_cons, List.length_nil, Nat.cast_add, Nat.cast_one, Nat.cast_zero] at e5 e6
    refine ⟨h1, by rw [← h2, hL]; simp, h3, h4, ?_, ?_, fun hr => absurd hr hb.1,
      fun hr => absurd hr hb.2, h9⟩
    · dsimp only [outstandingFolders]
      simp only [List.map_append, List.map_cons, List.sum_append, List.sum_cons, ListerPC.heldFolders, ListerPC.heldFiles, List.length_append, List.length_cons, List.length_nil, Nat.cast_add, Nat.cast_one, Nat.cast_zero]
      omega
    · dsimp only [outstandingFiles]
      simp only [List.map_append, List.map_cons, List.sum_append, List.sum_cons, ListerPC.heldFolders, ListerPC.heldFiles, List.length_append, List.length_cons, List.length_nil, Nat.cast_add, Nat.cast_one, Nat.cast_zero]
      omega
  | foldersDone L₁ L₂ f r hL =>
    have hb := busy_running s hI hL (by simp)
    have e5 := h5
    have e6 := h6
    have hA := sum_heldFolders_nonneg L₁
    have hB := sum_heldFolders_nonneg L₂
    simp only [outstandingFolders, outstandingFiles, hL, List.map_append, List.map_cons, List.sum_append, List.sum_cons, ListerPC.heldFolders, ListerPC.heldFiles, List.length_append, List.length_cons, List.length_nil, Nat.cast_add, Nat.cast_one, Nat.cast_zero] at e5 e6
    refine ⟨h1, by rw [← h2, hL]; simp, h3, h4, ?_, ?_, fun hr => absurd hr hb.1,
      fun hr => absurd hr hb.2, h9⟩
    · dsimp only [outstandingFolders]
      simp only [List.map_append, List.map_cons, List.sum_append, List.sum_cons, ListerPC.heldFolders, ListerPC.heldFiles, List.length_append, List.length_cons, List.length_nil, Nat.cast_add, Nat.cast_one, Nat.cast_zero]
      omega
    · dsimp only [outstandingFiles]
      simp only [List.map_append, List.map_cons, List.sum_append, List.sum_cons, ListerPC.heldFolders, ListerPC.heldFiles, List.length_append, List.length_cons, List.length_nil, Nat.cast_add, Nat.cast_one, Nat.cast_zero]
      omega
  | sendFile L₁ L₂ f r k rest hL hf =>
    have hb := busy_running s hI hL (by simp)
    have e5 := h5
    have e6 := h6
    have hA := sum_heldFolders_nonneg L₁
    have hB := sum_heldFolders_nonneg L₂
    simp only [outstandingFolders, outstandingFiles, hL, List.map_append, List.map_cons, List.sum_append, List.sum_cons, ListerPC.heldFolders, ListerPC.heldFiles, List.length_append, List.length_cons, List.length_nil, Nat.cast_add, Nat.cast_one, Nat.cast_zero] at e5 e6
    refine ⟨h1, by rw [← h2, hL]; simp, h3, h4, ?_, ?_, fun hr => absurd hr hb.1,
      fun hr => absurd hr hb.2, h9⟩
    · dsimp only [outstandingFolders]
      simp only [List.map_append, List.map_cons, List.sum_append, List.sum_cons, ListerPC.heldFolders, ListerPC.heldFiles, List.length_append, List.length_cons, List.length_nil, Nat.cast_add, Nat.cast_one, Nat.cast_zero]
      try simp only [hf, reduceCtorEq, if_false] at e6
      try simp only [reduceCtorEq, if_false]
      omega
    · dsimp only [outstandingFiles]
      simp only [List.map_append, List.map_cons, List.sum_append, List.sum_cons, ListerPC.heldFolders, ListerPC.heldFiles, List.length_append, List.length_cons, List.length_nil, Nat.cast_add, Nat.cast_one, Nat.cast_zero]
      try simp only [hf, reduceCtorEq, if_false] at e6
      try simp only [reduceCtorEq, if_false]
      omega
  | filesDone L₁ L₂ f r hL =>
    have hb := busy_running s hI hL (by simp)
    have e5 := h5
    have e6 := h6
    have hA := sum_heldFolders_nonneg L₁
    have hB := sum_heldFolders_nonneg L₂
    simp only [outstandingFolders, outstandingFiles, hL, List.map_append, List.map_cons, List.sum_append, List.sum_cons, ListerPC.heldFolders, ListerPC.heldFiles, List.length_append, List.length_cons, List.length_nil, Nat.cast_add, Nat.cast_one, Nat.cast_zero] at e5 e6
    refine ⟨h1, by rw [← h2, hL]; simp, h3, h4, ?_, ?_, fun hr => absurd hr hb.1,
      fun hr => absurd hr hb.2, h9⟩
    · dsimp only [outstandingFolders]
      simp only [List.map_append, List.map_cons, List.sum_append, List.sum_cons, ListerPC.heldFolders, ListerPC.heldFiles, List.length_append, List.length_cons, List.length_nil, Nat.cast_add, Nat.cast_one, Nat.cast_zero]
      rcases Bool.eq_false_or_eq_true r.IsTruncated with ht | ht <;>
        simp only [ht, if_true, if_false, reduceCtorEq, ListerPC.heldFolders, ListerPC.heldFiles] <;> omega
    · dsimp only [outstandingFiles]
      simp only [List.map_append, List.map_cons, List.sum_append, List.sum_cons, ListerPC.heldFolders, ListerPC.heldFiles, List.length_append, List.length_cons, List.length_nil, Nat.cast_add, Nat.cast_one, Nat.cast_zero]
      rcases Bool.eq_false_or_eq_true r.IsTruncated with ht | ht <;>
        simp only [ht, if_true, if_false, reduceCtorEq, ListerPC.heldFolders, ListerPC.heldFiles] <;> omega
  | subFolders L₁ L₂ hL hl =>
    have hb := busy_running s hI hL (by simp)
    have e5 := h5
    have e6 := h6
    have hA := sum_heldFolders_nonneg L₁
    have hB := sum_heldFolders_nonneg L₂
    simp only [outstandingFolders, outstandingFiles, hL, List.map_append, List.map_cons, List.sum_append, List.sum_cons, ListerPC.heldFolders, ListerPC.heldFiles, List.length_append, List.length_cons, List.length_nil, Nat.cast_add, Nat.cast_one, Nat.cast_zero] at e5 e6
    refine ⟨h1, by rw [← h2, hL]; simp, h3, h4, ?_, ?_, fun hr => absurd hr hb.1,
      fun hr => absurd hr hb.2, fun hr => absurd hr (hlk hl)⟩
    · dsimp only [outstandingFolders]
      simp only [List.map_append, List.map_cons, List.sum_append, List.sum_cons, ListerPC.heldFolders, ListerPC.heldFiles, List.length_append, List.length_cons, List.length_nil, Nat.cast_add, Nat.cast_one, Nat.cast_zero]
      omega
    · dsimp only [outstandingFiles]
      simp only [List.map_append, List.map_cons, List.sum_append, List.sum_cons, ListerPC.heldFolders, ListerPC.heldFiles, List.length_append, List.length_cons, List.length_nil, Nat.cast_add, Nat.cast_one, Nat.cast_zero]
      omega
  | forward x hf =>
    have hb := forwarding_running s hI (by rw [hf]; simp)
    have e6 := h6
    simp only [outstandingFiles, hf, reduceCtorEq, if_false] at e6
    refine ⟨h1, h2, h3, h4, h5, ?_, fun hr => absurd hr hb.1, fun hr => absurd hr hb.2, h9⟩
    dsimp only [outstandingFiles]
    simp only [if_true]
    omega
  | subFiles hf hl =>
    have hb := forwarding_running s hI (by rw [hf]; simp)
    have e6 := h6
    simp only [outstandingFiles, hf, if_true] at e6
    refine ⟨h1, h2, h3, h4, h5, ?_, fun hr => absurd hr hb.1, fun hr => absurd hr hb.2,
      fun hr => absurd hr (hlk hl)⟩
    dsimp only [outstandingFiles]
    simp only [reduceCtorEq, if_false]
    omega
  | pumpSkipRecv hp => exact ⟨h1, h2, h3, h4, h5, h6, h7, h8, h9⟩
  | pumpOffer L₁ L₂ c rest hp hq hL =>
    have hb := queued_running s hI (by rw [hq]; simp)
    have e5 := h5
    have e6 := h6
    simp only [outstandingFolders, outstandingFiles, hL, hq, List.map_append, List.map_cons, List.sum_append, List.sum_cons, ListerPC.heldFolders, ListerPC.heldFiles, List.length_append, List.length_cons, List.length_nil, Nat.cast_add, Nat.cast_one, Nat.cast_zero] at e5 e6
    refine ⟨h1, by rw [← h2, hL]; simp, h3, h4, ?_, ?_, fun hr => absurd hr hb.1,
      fun hr => absurd hr hb.2, h9⟩
    · dsimp only [outstandingFolders]
      simp only [List.map_append, List.map_cons, List.sum_append, List.sum_cons, ListerPC.heldFolders, ListerPC.heldFiles, List.length_append, List.length_cons, List.length_nil, Nat.cast_add, Nat.cast_one, Nat.cast_zero]
      omega
    · dsimp only [outstandingFiles]
      simp only [List.map_append, List.map_cons, List.sum_append, List.sum_cons, ListerPC.heldFolders, ListerPC.heldFiles, List.length_append, List.length_cons, List.length_nil, Nat.cast_add, Nat.cast_one, Nat.cast_zero]
      omega
  | pumpSkipOffer hp => exact ⟨h1, h2, h3, h4, h5, h6, h7, h8, h9⟩

lemma Inv_reachable {σ : Type} (client : BucketClient σ) (this : FilesListRequest) (st : σ)
    (as : List Action) (s : State σ)
    (h : exec client (Run_init this st) as = some s) :
    Inv this.concurrencyLevel.toNat this.startFolder s :=
  reachable_induction client (Inv this.concurrencyLevel.toNat this.startFolder)
    (fun s w s' hI hs => Inv_step client _ _ s w s' hI hs) as _ s (Inv_init this st) h

end S3List

namespace S3List

/-! ## The engine: the counters (C3) and what `Run` does when it ends (C2) -/

lemma exec_keeps_channel {σ : Type} (client : BucketClient σ) (c : Bool) (k : Nat)
    (as : List Action) (s s' : State σ) (h0 : s.filesClosed = c ∧ s.listers.length = k)
    (h : exec client s as = some s') : s'.filesClosed = c ∧ s'.listers.length = k := by
  refine reachable_induction client (fun t => t.filesClosed = c ∧ t.listers.length = k)
    ?_ as s s' h0 h
  intro t w t' ht hs
  obtain ⟨h1, h2⟩ := ht
  cases hs <;> refine ⟨h1, ?_⟩ <;> dsimp only <;> first
    | exact h2
    | (have e := congrArg List.length ‹t.listers = _›
       simp only [List.length_append, List.length_cons] at e ⊢
       omega)

/-- C3 as stated fails: with one worker on the folder `d/e/` of the example,
after the forwarder has sent the only key to the consumer and before it runs
`subFiles(1)`, `stats.Files` is 1 although no counted key remains to be sent to
the consumer. -/
theorem counters_claim_fails :
    (exec (pureClient examplePages) (Run_init (exampleRequest "/d/e/".toList) ())
        scheduleUntilDelivered).map
      (fun s => (s.Files, outstandingFiles s, s.files)) =
      some (1, 0, ["/d/e/c".toList]) := by
  decide

/-- C3, amended: in every reachable state of the engine, whatever the client
answers and however the steps interleave, `stats.Folders` is the number of
prefixes counted and not yet finished by their worker, and `stats.Files` is
the number of keys counted and not yet sent to the consumer, plus one while
the forwarder stands between its send on `files` and `subFiles(1)`.  Hence
both counters are at least 0, and when both are 0 nothing is outstanding:
every worker is blocked in its receive, the queue is empty and the forwarder
is idle. -/
theorem counters_invariant {σ : Type} (client : BucketClient σ) (this : FilesListRequest)
    (st : σ) (as : List Action) (s : State σ)
    (h : exec client (Run_init this st) as = some s) :
    s.Folders = outstandingFolders s ∧
    s.Files = outstandingFiles s + (if s.forwarder = .subFiles then 1 else 0) ∧
    0 ≤ s.Folders ∧ 0 ≤ s.Files ∧ 0 ≤ outstandingFolders s ∧ 0 ≤ outstandingFiles s ∧
    (s.Folders = 0 ∧ s.Files = 0 →
      outstandingFolders s = 0 ∧ outstandingFiles s = 0 ∧
      (∀ pc ∈ s.listers, pc = .recv) ∧ s.queue = [] ∧ s.forwarder = .recv ∧
      s.run ≠ .seed) := by
  have hI := Inv_reachable client this st as s h
  have h5 := hI.folders
  have h6 := hI.files
  have hA := sum_heldFolders_nonneg s.listers
  have hB := sum_heldFiles_nonneg s.listers
  have hF : 0 ≤ outstandingFolders s := by
    unfold outstandingFolders
    have : (0 : Int) ≤ if s.run = .seed then 1 else 0 := by split <;> simp
    omega
  have hK : 0 ≤ outstandingFiles s := by
    unfold outstandingFiles
    split <;> omega
  have hite : (0 : Int) ≤ if s.forwarder = .subFiles then 1 else 0 := by split <;> simp
  refine ⟨h5, h6, by omega, by omega, hF, hK, ?_⟩
  rintro ⟨hf0, hk0⟩
  have e5 : outstandingFolders s = 0 := by omega
  have e6 : outstandingFiles s = 0 := by omega
  have e7 : (if s.forwarder = .subFiles then (1 : Int) else 0) = 0 := by omega
  refine ⟨e5, e6, ?_, ?_, ?_, ?_⟩
  · apply sum_heldFolders_eq_zero
    unfold outstandingFolders at e5
    have : (0 : Int) ≤ if s.run = .seed then 1 else 0 := by split <;> simp
    omega
  · unfold outstandingFolders at e5
    have : (0 : Int) ≤ if s.run = .seed then 1 else 0 := by split <;> simp
    have : (s.queue.length : Int) = 0 := by omega
    exact List.length_eq_zero.1 (by exact_mod_cast this)
  · unfold outstandingFiles at e6
    cases hfw : s.forwarder with
    | recv => rfl
    | send x => simp only [hfw] at e6; omega
    | subFiles => simp [hfw] at e7
  · intro hr
    unfold outstandingFolders at e5
    simp only [hr, if_true] at e5
    omega

/-- Witness for C3: the state of the example in which the key has been sent to the
consumer and `subFiles(1)` has not yet run. -/
theorem counters_invariant_witness :
    exec (pureClient examplePages) (Run_init (exampleRequest "/d/e/".toList) ())
        scheduleUntilDelivered =
      some { Folders := 1, Files := 1, locked := false, client := (),
             startFolder := "d/e/".toList, run := .poll,
             listers := [.sendFiles "d/e/".toList (examplePages "d/e/".toList []) []],
             forwarder := .subFiles, queue := [], pump := .recvSel,
             files := ["/d/e/c".toList], filesClosed := false } ∧
    (1 : Int) = outstandingFolders
      ({ Folders := 1, Files := 1, locked := false, client := (),
         startFolder := "d/e/".toList, run := .poll,
         listers := [.sendFiles "d/e/".toList (examplePages "d/e/".toList []) []],
         forwarder := .subFiles, queue := [], pump := .recvSel,
         files := ["/d/e/c".toList], filesClosed := false } : State Unit) :=
  ⟨by rfl, (counters_invariant (pureClient examplePages) (exampleRequest "/d/e/".toList) ()
    scheduleUntilDelivered _ (by rfl)).1⟩

/-- C2 as stated fails: in the example, once `Run` has seen both counters at 0 and
returned, the only key has been delivered, but the channel `files` is not
closed, the worker is still there, blocked in its receive, the queue goroutine
still runs its loop, and nothing the engine does later closes the channel or
ends the worker. -/
theorem Run_return_leaves_engine_running :
    ∃ s : State Unit,
      exec (pureClient examplePages) (Run_init (exampleRequest "/d/e/".toList) ())
        scheduleUntilReturn = some s ∧
      s.run = .returned ∧ s.files = ["/d/e/c".toList] ∧ s.filesClosed = false ∧
      s.listers = [.recv] ∧
      (step (pureClient examplePages) s .pumpSkipRecv).isSome = true ∧
      ∀ (as : List Action) (s' : State Unit),
        exec (pureClient examplePages) s as = some s' →
          s'.filesClosed = false ∧ s'.listers.length = 1 := by
  refine ⟨{ Folders := 0, Files := 0, locked := true, client := (),
            startFolder := "d/e/".toList, run := .returned, listers := [.recv],
            forwarder := .recv, queue := [], pump := .recvSel,
            files := ["/d/e/c".toList], filesClosed := false },
    by rfl, rfl, rfl, rfl, rfl, by rfl, ?_⟩
  intro as s' h
  exact exec_keeps_channel (pureClient examplePages) false 1 as
    { Folders := 0, Files := 0, locked := true, client := (),
      startFolder := "d/e/".toList, run := .returned, listers := [.recv],
      forwarder := .recv, queue := [], pump := .recvSel,
      files := ["/d/e/c".toList], filesClosed := false } s' ⟨rfl, rfl⟩ h

/-- C2, amended: in every reachable state the channel `files` is not closed and
all `concurrencyLevel` workers are still there; when `Run`, polling, finds both
counters at 0 it returns, leaving workers, queue and channel as they are, and
otherwise it polls again; and once `Run` has returned, both counters are 0 and
nothing is outstanding (every worker is blocked in its receive, the queue is
empty, the forwarder has delivered every key it received), while the queue
goroutine goes on running its loop. -/
theorem Run_return_quiescent {σ : Type} (client : BucketClient σ) (this : FilesListRequest)
    (st : σ) (as : List Action) (s : State σ)
    (h : exec client (Run_init this st) as = some s) :
    s.filesClosed = false ∧ s.listers.length = this.concurrencyLevel.toNat ∧
    (s.run = .poll → s.Folders = 0 → s.Files = 0 →
      ∃ s', step client s .run = some s' ∧ s'.run = .returned ∧
        s'.listers = s.listers ∧ s'.queue = s.queue ∧ s'.forwarder = s.forwarder ∧
        s'.files = s.files ∧ s'.filesClosed = false) ∧
    (s.run = .poll → ¬ (s.Folders = 0 ∧ s.Files = 0) → step client s .run = some s) ∧
    (s.run = .returned →
      s.Folders = 0 ∧ s.Files = 0 ∧
      (∀ pc ∈ s.listers, pc = .recv) ∧ s.queue = [] ∧ s.forwarder = .recv ∧
      ((step client s .pumpSkipRecv).isSome = true ∨
       (step client s .pumpSkipOffer).isSome = true)) := by
  have hI := Inv_reachable client this st as s h
  have hl : s.run = .poll → s.locked = false := by
    intro hr
    cases hlk : s.locked with
    | false => rfl
    | true => rw [hI.lock.1 hlk] at hr; cases hr
  refine ⟨hI.notClosed, hI.workers, ?_, ?_, ?_⟩
  · intro hr hf hk
    exact ⟨{ s with locked := true, run := .returned }, by simp [step, hr, hl hr, hf, hk],
      rfl, rfl, rfl, rfl, rfl, hI.notClosed⟩
  · intro hr hb
    simp only [step, hr, hl hr, Bool.false_eq_true, if_false]
    rw [if_neg hb]
  · intro hr
    obtain ⟨hf, hk⟩ := hI.done hr
    have h5 := hI.folders
    have h6 := hI.files
    have hA := sum_heldFolders_nonneg s.listers
    have hB := sum_heldFiles_nonneg s.listers
    have hq : (0 : Int) ≤ s.queue.length := by omega
    simp only [outstandingFolders, hr, reduceCtorEq, if_false] at h5
    refine ⟨hf, hk, ?_, ?_, ?_, ?_⟩
    · exact sum_heldFolders_eq_zero _ (by omega)
    · have : (s.queue.length : Int) = 0 := by omega
      exact List.length_eq_zero.1 (by exact_mod_cast this)
    · unfold outstandingFiles at h6
      cases hfw : s.forwarder with
      | recv => rfl
      | send x => simp only [hfw, reduceCtorEq, if_false] at h6; omega
      | subFiles => simp only [hfw, if_true] at h6; omega
    · cases hp : s.pump with
      | recvSel => left; simp [step, hp]
      | offerSel => right; simp [step, hp]

/-- Witness for C2: the example run up to the return of `Run`. -/
theorem Run_return_quiescent_witness :
    exec (pureClient examplePages) (Run_init (exampleRequest "/d/e/".toList) ())
        scheduleUntilReturn =
      some { Folders := 0, Files := 0, locked := true, client := (),
             startFolder := "d/e/".toList, run := .returned, listers := [.recv],
             forwarder := .recv, queue := [], pump := .recvSel,
             files := ["/d/e/c".toList], filesClosed := false } ∧
    ({ Folders := 0, Files := 0, locked := true, client := (),
       startFolder := "d/e/".toList, run := .returned, listers := [.recv],
       forwarder := .recv, queue := [], pump := .recvSel,
       files := ["/d/e/c".toList], filesClosed := false } : State Unit).filesClosed = false :=
  ⟨by rfl, (Run_return_quiescent (pureClient examplePages) (exampleRequest "/d/e/".toList) ()
    scheduleUntilReturn _ (by rfl)).1⟩

end S3List

namespace S3List

/-! ## The engine: what is delivered begins with the start folder (C7) -/

lemma PrefixInv_init {σ : Type} (this : FilesListRequest) (st : σ) :
    PrefixInv this.startFolder (Run_init this st) := by
  refine ⟨rfl, ?_, ?_, ?_, ?_⟩
  · intro pc hpc
    rw [List.eq_of_mem_replicate hpc]
    trivial
  · intro c hc; cases hc
  · intro x hx; cases hx
  · intro x hx; cases hx

/-- Replacing one worker's program point keeps the workers within `p` when the
new program point is. -/
lemma within_replace {p : Str} {L : List ListerPC} {L₁ L₂ : List ListerPC}
    {pc pc' : ListerPC} (hL : L = L₁ ++ pc :: L₂) (h : ∀ q ∈ L, q.Within p)
    (h' : pc.Within p → pc'.Within p) : ∀ q ∈ L₁ ++ pc' :: L₂, q.Within p := by
  subst hL
  intro q hq
  simp only [List.mem_append, List.mem_cons] at hq h
  rcases hq with hq | rfl | hq
  · exact h q (Or.inl hq)
  · exact h' (h pc (Or.inr (Or.inl rfl)))
  · exact h q (Or.inr (Or.inr hq))

lemma PrefixInv_step {σ : Type} (client : BucketClient σ) (hc : ListsWithin client)
    (p : Str) (s : State σ) (w : Bool) (s' : State σ) (hI : PrefixInv p s)
    (hs : Step client s w s') : PrefixInv p s' := by
  obtain ⟨h1, h2, h3, h4, h5⟩ := hI
  cases hs with
  | runAddFolders hr hl => exact ⟨h1, h2, h3, h4, h5⟩
  | runPollBusy hr hl hb => exact ⟨h1, h2, h3, h4, h5⟩
  | runReturn hr hl hq => exact ⟨h1, h2, h3, h4, h5⟩
  | seed L₁ L₂ hr hL =>
    refine ⟨h1, within_replace hL h2 (fun _ => ?_), h3, h4, h5⟩
    rw [h1]
    exact List.prefix_refl p
  | callErr L₁ L₂ f m st' e hL hc' => exact ⟨h1, h2, h3, h4, h5⟩
  | callOk L₁ L₂ f m st' r hL hc' =>
    refine ⟨h1, within_replace hL h2 (fun hw => ?_), h3, h4, h5⟩
    obtain ⟨hk, hcp⟩ := hc _ _ _ _ _ _ _ hc'
    exact ⟨hw, fun c hcm => hw.trans (hcp c hcm), fun k hkm => hw.trans (hk k hkm)⟩
  | addFolders L₁ L₂ f r hL hl =>
    exact ⟨h1, within_replace hL h2 (fun hw => hw), h3, h4, h5⟩
  | addFiles L₁ L₂ f r hL hl =>
    exact ⟨h1, within_replace hL h2 (fun hw => hw), h3, h4, h5⟩
  | sendFolder L₁ L₂ f r c rest hL hp =>
    have hw : (ListerPC.sendFolders f r (c :: rest)).Within p :=
      h2 _ (by rw [hL]; simp)
    refine ⟨h1, within_replace hL h2 (fun hw => ?_), ?_, h4, h5⟩
    · exact ⟨hw.1, fun c' hc' => hw.2.1 c' (List.mem_cons_of_mem _ hc'), hw.2.2⟩
    · intro c' hc'
      rcases List.mem_append.1 hc' with hc' | hc'
      · exact h3 c' hc'
      · rw [List.mem_singleton.1 hc']
        exact hw.2.1 c (List.mem_cons_self _ _)
  | foldersDone L₁ L₂ f r hL =>
    exact ⟨h1, within_replace hL h2 (fun hw => ⟨hw.1, hw.2.2⟩), h3, h4, h5⟩
  | sendFile L₁ L₂ f r k rest hL hf =>
    have hw : (ListerPC.sendFiles f r (k :: rest)).Within p :=
      h2 _ (by rw [hL]; simp)
    refine ⟨h1, within_replace hL h2 (fun hw => ?_), h3, ?_, h5⟩
    · exact ⟨hw.1, fun k' hk' => hw.2 k' (List.mem_cons_of_mem _ hk')⟩
    · intro x hx
      simp only [ForwarderPC.send.injEq] at hx
      exact ⟨k.Key, hx.symm, hw.2 k (List.mem_cons_self _ _)⟩
  | filesDone L₁ L₂ f r hL =>
    refine ⟨h1, within_replace hL h2 (fun hw => ?_), h3, h4, h5⟩
    split
    · trivial
    · exact hw.1
  | subFolders L₁ L₂ hL hl =>
    exact ⟨h1, within_replace hL h2 (fun _ => trivial), h3, h4, h5⟩
  | forward x hf =>
    refine ⟨h1, h2, h3, ?_, ?_⟩
    · intro y hy; cases hy
    · intro y hy
      rcases List.mem_append.1 hy with hy | hy
      · exact h5 y hy
      · rw [List.mem_singleton.1 hy]
        exact h4 x hf
  | subFiles hf hl =>
    refine ⟨h1, h2, h3, ?_, h5⟩
    intro y hy; cases hy
  | pumpSkipRecv hp => exact ⟨h1, h2, h3, h4, h5⟩
  | pumpOffer L₁ L₂ c rest hp hq hL =>
    refine ⟨h1, within_replace hL h2 (fun _ => ?_), ?_, h4, h5⟩
    · exact h3 c (by rw [hq]; exact List.mem_cons_self _ _)
    · intro c' hc'
      exact h3 c' (by rw [hq]; exact List.mem_cons_of_mem _ hc')
  | pumpSkipOffer hp => exact ⟨h1, h2, h3, h4, h5⟩

lemma examplePages_within : ListsWithin (pureClient examplePages) := by
  intro st f d m n st' r h
  simp only [pureClient, Prod.mk.injEq, Except.ok.injEq] at h
  obtain ⟨-, rfl⟩ := h
  unfold examplePages
  split_ifs with h1 h2 h3 h4 h5
  · subst h1; simp
  · subst h2; simp
  · subst h2; simp
  · subst h2; simp
  · subst h5; simp
  · simp

/-- C7 as stated fails: the example mock returns, for every prefix, only keys and
common prefixes that begin with it; started on the prefix `d/e/` (installed
through `Folder`), the engine delivers `/d/e/c`, which does not begin with
`d/e/`. -/
theorem delivered_prefix_claim_fails :
    ListsWithin (pureClient examplePages) ∧
    (Folder (NewFilesListRequest "AK".toList "SK".toList "bucket".toList
      "us-east-1".toList) "/d/e/".toList).1.startFolder = "d/e/".toList ∧
    (exec (pureClient examplePages) (Run_init (exampleRequest "/d/e/".toList) ())
        scheduleUntilDelivered).map (fun s => s.files) = some ["/d/e/c".toList] ∧
    ¬ ("d/e/".toList <+: "/d/e/c".toList) := by
  refine ⟨examplePages_within, by decide, by decide, by decide⟩

/-- C7, amended: for every start prefix installed through `Folder` and every
client whose listing of a prefix returns only keys and common prefixes that
begin with that prefix, every string the engine delivers on `files` is a `/`
followed by a key that begins with the start prefix; so it begins with the
start prefix itself only when that prefix is empty. -/
theorem delivered_within_prefix {σ : Type} (client : BucketClient σ)
    (hc : ListsWithin client) (this : FilesListRequest) (f : Str) (n : Int) (st : σ)
    (as : List Action) (s : State σ)
    (h : exec client (Run_init (Concurrency (Folder this f).1 n).1 st) as = some s) :
    ∀ x ∈ s.files,
      (∃ k : Str, x = '/' :: k ∧ (Folder this f).1.startFolder <+: k) ∧
      ((Folder this f).1.startFolder <+: x ↔ (Folder this f).1.startFolder = []) := by
  have hstart : (Concurrency (Folder this f).1 n).1.startFolder =
      (Folder this f).1.startFolder := by
    unfold Concurrency; split <;> rfl
  have hI : PrefixInv (Folder this f).1.startFolder s := by
    refine reachable_induction client (PrefixInv (Folder this f).1.startFolder)
      (fun s w s' hI hs => PrefixInv_step client hc _ s w s' hI hs) as _ s ?_ h
    rw [← hstart]
    exact PrefixInv_init _ st
  intro x hx
  obtain ⟨k, rfl, hk⟩ := hI.files x hx
  refine ⟨⟨k, rfl, hk⟩, ?_⟩
  constructor
  · intro hp
    by_contra hne
    obtain ⟨c, t, ht⟩ := List.exists_cons_of_ne_nil hne
    have hno := TrimLeft_slash_head f
    have hsf : (Folder this f).1.startFolder = TrimLeft f ['/'] := rfl
    rw [hsf] at ht hp
    rw [ht] at hp hno
    obtain ⟨u, hu⟩ := hp
    simp only [List.cons_append, List.cons.injEq] at hu
    rw [hu.1] at hno
    exact hno ⟨t, rfl⟩
  · intro he
    rw [he]
    exact List.nil_prefix

/-- Witness for C7: the example run on the prefix `d/e/`. -/
theorem delivered_within_prefix_witness :
    (ListsWithin (pureClient examplePages) ∧
     exec (pureClient examplePages)
        (Run_init (Concurrency (Folder (NewFilesListRequest "AK".toList "SK".toList
          "bucket".toList "us-east-1".toList) "/d/e/".toList).1 1).1 ())
        scheduleUntilDelivered =
      some { Folders := 1, Files := 1, locked := false, client := (),
             startFolder := "d/e/".toList, run := .poll,
             listers := [.sendFiles "d/e/".toList (examplePages "d/e/".toList []) []],
             forwarder := .subFiles, queue := [], pump := .recvSel,
             files := ["/d/e/c".toList], filesClosed := false }) ∧
    ∀ x ∈ ["/d/e/c".toList],
      (∃ k : Str, x = '/' :: k ∧
        (Folder (NewFilesListRequest "AK".toList "SK".toList "bucket".toList
          "us-east-1".toList) "/d/e/".toList).1.startFolder <+: k) ∧
      ((Folder (NewFilesListRequest "AK".toList "SK".toList "bucket".toList
          "us-east-1".toList) "/d/e/".toList).1.startFolder <+: x ↔
        (Folder (NewFilesListRequest "AK".toList "SK".toList "bucket".toList
          "us-east-1".toList) "/d/e/".toList).1.startFolder = []) :=
  ⟨⟨examplePages_within, by rfl⟩,
   delivered_within_prefix (pureClient examplePages) examplePages_within
    (NewFilesListRequest "AK".toList "SK".toList "bucket".toList "us-east-1".toList)
    "/d/e/".toList 1 () scheduleUntilDelivered
    { Folders := 1, Files := 1, locked := false, client := (),
      startFolder := "d/e/".toList, run := .poll,
      listers := [.sendFiles "d/e/".toList (examplePages "d/e/".toList []) []],
      forwarder := .subFiles, queue := [], pump := .recvSel,
      files := ["/d/e/c".toList], filesClosed := false } (by rfl)⟩

end S3List

namespace S3List

/-! ## Completeness: the potential is conserved -/

section Potential
variable {β : Type} [AddCommMonoid β] (u : β) (ent : Str → β)

lemma pagePot_congr (g g' : Str → β) (pg : ListResp)
    (h : ∀ c ∈ pg.CommonPrefixes, g c = g' c) :
    pagePot u ent g pg = pagePot u ent g' pg := by
  unfold pagePot
  have : pg.CommonPrefixes.map (fun c => 2 • u + g c) =
      pg.CommonPrefixes.map (fun c => 2 • u + g' c) :=
    List.map_congr_left (fun c hc => by rw [h c hc])
  rw [this]

lemma folderPot_stable (chainOf : Str → Str → List ListResp) (rank : Str → Nat)
    (hwf : ∀ f pg c, pg ∈ chainOf f [] → c ∈ pg.CommonPrefixes → rank c < rank f) :
    ∀ (n : Nat) (f : Str), rank f < n →
      folderPot u ent chainOf n f = folderPot u ent chainOf (rank f + 1) f := by
  intro n
  induction n using Nat.strong_induction_on with
  | _ n ih =>
    intro f hf
    cases n with
    | zero => omega
    | succ n =>
      rw [folderPot, folderPot]
      congr 1
      congr 1
      apply List.map_congr_left
      intro pg hpg
      apply pagePot_congr
      intro c hc
      have hr := hwf f pg c hpg hc
      rw [ih n (by omega) c (by omega), ih (rank f) (by omega) c hr]

lemma folderPot_unfold (chainOf : Str → Str → List ListResp) (rank : Str → Nat)
    (hwf : ∀ f pg c, pg ∈ chainOf f [] → c ∈ pg.CommonPrefixes → rank c < rank f)
    (f : Str) :
    folderPot u ent chainOf (rank f + 1) f =
      ((chainOf f []).map
        (pagePot u ent (fun c => folderPot u ent chainOf (rank c + 1) c))).sum + u := by
  rw [folderPot]
  congr 1
  congr 1
  apply List.map_congr_left
  intro pg hpg
  apply pagePot_congr
  intro c hc
  exact folderPot_stable u ent chainOf rank hwf (rank f) c (hwf f pg c hpg hc)

lemma onChain_replace {chainOf : Str → Str → List ListResp} {L : List ListerPC}
    {L₁ L₂ : List ListerPC} {pc pc' : ListerPC} (hL : L = L₁ ++ pc :: L₂)
    (h : ∀ q ∈ L, q.OnChain chainOf) (h' : pc.OnChain chainOf → pc'.OnChain chainOf) :
    ∀ q ∈ L₁ ++ pc' :: L₂, q.OnChain chainOf := by
  subst hL
  intro q hq
  simp only [List.mem_append, List.mem_cons] at hq h
  rcases hq with hq | rfl | hq
  · exact h q (Or.inl hq)
  · exact h' (h pc (Or.inr (Or.inl rfl)))
  · exact h q (Or.inr (Or.inr hq))

/-- Every step keeps what the state is worth, a working step using up one unit. -/
lemma statePot_step {σ : Type} (client : BucketClient σ) (list : Str → Str → ListResp)
    (chainOf : Str → Str → List ListResp) (rank : Str → Nat)
    (hO : TreeOracle list chainOf rank) (hans : AnswersFrom client list)
    (g : Str → β)
    (hg : ∀ f, g f = ((chainOf f []).map (pagePot u ent g)).sum + u)
    (s : State σ) (w : Bool) (s' : State σ)
    (hch : ∀ pc ∈ s.listers, pc.OnChain chainOf) (hs : Step client s w s') :
    statePot u ent chainOf g s =
        statePot u ent chainOf g s' + (if w = true then u else 0) ∧
      (∀ pc ∈ s'.listers, pc.OnChain chainOf) ∧ s'.startFolder = s.startFolder := by
  cases hs with
  | runAddFolders hr hl =>
    refine ⟨?_, hch, rfl⟩
    simp only [statePot, hr, runPot, if_true]
    abel
  | runPollBusy hr hl hb =>
    refine ⟨?_, hch, rfl⟩
    simp
  | runReturn hr hl hq =>
    refine ⟨?_, hch, rfl⟩
    simp only [statePot, hr, runPot, if_true]
    abel
  | seed L₁ L₂ hr hL =>
    refine ⟨?_, onChain_replace hL hch (fun _ => hO.root _), rfl⟩
    simp only [statePot, hr, hL, runPot, listerPot, List.map_append, List.map_cons,
      List.sum_append, List.sum_cons, if_true]
    rw [hg s.startFolder]
    abel
  | callErr L₁ L₂ f m st' e hL hc =>
    obtain ⟨st'', h⟩ := hans s.client f m
    rw [hc] at h
    simp at h
  | callOk L₁ L₂ f m st' r hL hc =>
    obtain ⟨st'', h⟩ := hans s.client f m
    rw [hc] at h
    simp only [Prod.mk.injEq, Except.ok.injEq] at h
    obtain ⟨-, rfl⟩ := h
    have hne : chainOf f m ≠ [] := hch (.list f m) (by rw [hL]; simp)
    obtain ⟨hu1, hu2⟩ := hO.unfold f m hne
    refine ⟨?_, onChain_replace hL hch (fun _ => hu2), rfl⟩
    simp only [statePot, hL, listerPot, List.map_append, List.map_cons,
      List.sum_append, List.sum_cons, if_true]
    by_cases ht : (list f m).IsTruncated = true
    · rw [if_pos ht] at hu1
      rw [hu1]
      simp only [List.map_cons, List.sum_cons, tailPot, pagePot, if_pos ht]
      abel
    · rw [if_neg ht] at hu1
      rw [hu1]
      simp only [List.map_cons, List.sum_cons, List.map_nil, List.sum_nil, tailPot,
        pagePot, if_neg ht]
      abel
  | addFolders L₁ L₂ f r hL hl =>
    refine ⟨?_, onChain_replace hL hch (fun h => h), rfl⟩
    simp only [statePot, hL, listerPot, List.map_append, List.map_cons,
      List.sum_append, List.sum_cons, if_true]
    abel
  | addFiles L₁ L₂ f r hL hl =>
    refine ⟨?_, onChain_replace hL hch (fun h => h), rfl⟩
    simp only [statePot, hL, listerPot, List.map_append, List.map_cons,
      List.sum_append, List.sum_cons, if_true]
    abel
  | sendFolder L₁ L₂ f r c rest hL hp =>
    refine ⟨?_, onChain_replace hL hch (fun h => h), rfl⟩
    simp only [statePot, hL, listerPot, List.map_append, List.map_cons, List.map_nil,
      List.sum_append, List.sum_cons, List.sum_nil, if_true]
    abel
  | foldersDone L₁ L₂ f r hL =>
    refine ⟨?_, onChain_replace hL hch (fun h => h), rfl⟩
    simp only [statePot, hL, listerPot, List.map_append, List.map_cons, List.map_nil,
      List.sum_append, List.sum_cons, List.sum_nil, if_true]
    abel
  | sendFile L₁ L₂ f r k rest hL hf =>
    refine ⟨?_, onChain_replace hL hch (fun h => h), rfl⟩
    simp only [statePot, hL, hf, listerPot, forwarderPot, List.map_append, List.map_cons,
      List.map_nil, List.sum_append, List.sum_cons, List.sum_nil, if_true]
    abel
  | filesDone L₁ L₂ f r hL =>
    by_cases ht : r.IsTruncated = true
    · refine ⟨?_, onChain_replace hL hch (fun h => ?_), rfl⟩
      · simp only [statePot, hL, ht, listerPot, tailPot, List.map_append, List.map_cons,
          List.map_nil, List.sum_append, List.sum_cons, List.sum_nil, if_true,
          Bool.true_eq_false, if_false]
        abel
      · simp only [ht, Bool.true_eq_false, if_false]
        exact h ht
    · have ht' : r.IsTruncated = false := by simpa using ht
      refine ⟨?_, onChain_replace hL hch (fun _ => ?_), rfl⟩
      · simp only [statePot, hL, ht', listerPot, tailPot, List.map_append, List.map_cons,
          List.map_nil, List.sum_append, List.sum_cons, List.sum_nil, if_true,
          Bool.false_eq_true, if_false]
        abel
      · simp only [ht', if_true]
        trivial
  | subFolders L₁ L₂ hL hl =>
    refine ⟨?_, onChain_replace hL hch (fun _ => trivial), rfl⟩
    simp only [statePot, hL, listerPot, List.map_append, List.map_cons,
      List.sum_append, List.sum_cons, if_true]
    abel
  | forward x hf =>
    refine ⟨?_, hch, rfl⟩
    simp only [statePot, hf, forwarderPot, List.map_append, List.map_cons, List.map_nil,
      List.sum_append, List.sum_cons, List.sum_nil, if_true]
    abel
  | subFiles hf hl =>
    refine ⟨?_, hch, rfl⟩
    simp only [statePot, hf, forwarderPot, if_true]
    abel
  | pumpSkipRecv hp =>
    refine ⟨?_, hch, rfl⟩
    simp [statePot]
  | pumpOffer L₁ L₂ c rest hp hq hL =>
    refine ⟨?_, onChain_replace hL hch (fun _ => hO.root _), rfl⟩
    simp only [statePot, hL, hq, listerPot, List.map_append, List.map_cons,
      List.sum_append, List.sum_cons, if_true]
    rw [hg c]
    abel
  | pumpSkipOffer hp =>
    refine ⟨?_, hch, rfl⟩
    simp [statePot]

end Potential

end S3List

namespace S3List

/-! ## Completeness: the engine never gets stuck before `Run` returns -/

lemma exec_one {σ : Type} (client : BucketClient σ) (s : State σ) (a : Action)
    (h : (step client s a).isSome = true) (hw : works client s a = true) :
    ∃ as s'', exec client s as = some s'' ∧ 1 ≤ workCount client s as := by
  obtain ⟨s', h⟩ := Option.isSome_iff_exists.1 h
  refine ⟨[a], s', ?_, ?_⟩
  · simp [exec, h]
  · simp [workCount, h, hw]

lemma exec_two {σ : Type} (client : BucketClient σ) (s s₁ : State σ) (a a' : Action)
    (h : step client s a = some s₁) (h' : (step client s₁ a').isSome = true)
    (hw : works client s₁ a' = true) :
    ∃ as s'', exec client s as = some s'' ∧ 1 ≤ workCount client s as := by
  obtain ⟨s₂, h'⟩ := Option.isSome_iff_exists.1 h'
  refine ⟨[a, a'], s₂, ?_, ?_⟩
  · simp [exec, h, h']
  · simp [workCount, h, h', hw]

lemma lister_can_work {σ : Type} (client : BucketClient σ) (list : Str → Str → ListResp)
    (hans : AnswersFrom client list) (s : State σ) (hl : s.locked = false)
    (hf : s.forwarder = .recv) (i : Nat) (pc : ListerPC) (hi : s.listers[i]? = some pc)
    (hpc : pc ≠ .recv) :
    ∃ as s'', exec client s as = some s'' ∧ 1 ≤ workCount client s as := by
  cases pc with
  | recv => exact absurd rfl hpc
  | list f m =>
    obtain ⟨st', hc⟩ := hans s.client f m
    exact exec_one client s (.lister i)
      (by simp [step, hi, listerStep, hc, applyEffect]) (by simp [works, hi, hc])
  | addFolders f r =>
    exact exec_one client s (.lister i)
      (by simp [step, hi, listerStep, applyEffect, hl]) (by simp [works, hi])
  | addFiles f r =>
    exact exec_one client s (.lister i)
      (by simp [step, hi, listerStep, applyEffect, hl]) (by simp [works, hi])
  | sendFolders f r rest =>
    cases rest with
    | nil =>
      exact exec_one client s (.lister i)
        (by simp [step, hi, listerStep, applyEffect]) (by simp [works, hi])
    | cons c rest =>
      cases hp : s.pump with
      | recvSel =>
        exact exec_one client s (.lister i)
          (by simp [step, hi, listerStep, applyEffect, hp]) (by simp [works, hi])
      | offerSel =>
        exact exec_two client s { s with pump := .recvSel } .pumpSkipOffer (.lister i)
          (by simp [step, hp]) (by simp [step, hi, listerStep, applyEffect])
          (by simp [works, hi])
  | sendFiles f r rest =>
    cases rest with
    | nil =>
      exact exec_one client s (.lister i)
        (by simp [step, hi, listerStep, applyEffect]) (by simp [works, hi])
    | cons k rest =>
      exact exec_one client s (.lister i)
        (by simp [step, hi, listerStep, applyEffect, hf]) (by simp [works, hi])
  | subFolders =>
    exact exec_one client s (.lister i)
      (by simp [step, hi, listerStep, applyEffect, hl]) (by simp [works, hi])

/-- Before `Run` has returned, some working step can always be taken, at most
one `default` branch of the queue goroutine away. -/
lemma engine_progress {σ : Type} (client : BucketClient σ) (list : Str → Str → ListResp)
    (hans : AnswersFrom client list) (n : Nat) (hn : 1 ≤ n) (p : Str) (s : State σ)
    (hI : Inv n p s) (hr : s.run ≠ .returned) :
    ∃ as s', exec client s as = some s' ∧ 1 ≤ workCount client s as := by
  have hl : s.locked = false := by
    cases hlk : s.locked with
    | false => rfl
    | true => exact absurd (hI.lock.1 hlk) hr
  have h0 : ∀ pc, (∀ q ∈ s.listers, q = .recv) → s.listers[0]? = some pc → pc = .recv := by
    intro pc hall h
    exact hall pc (List.getElem?_mem h)
  have hex : ∃ pc, s.listers[0]? = some pc := by
    have : 0 < s.listers.length := by rw [hI.workers]; omega
    exact ⟨s.listers[0], by simp [this]⟩
  have h5 := hI.folders
  have h6 := hI.files
  have hA := sum_heldFolders_nonneg s.listers
  have hB := sum_heldFiles_nonneg s.listers
  cases hrun : s.run with
  | returned => exact absurd hrun hr
  | addFolders =>
    exact exec_one client s .run (by simp [step, hrun, hl]) (by simp [works, hrun])
  | seed =>
    have hall : ∀ q ∈ s.listers, q = .recv := by
      apply sum_heldFolders_eq_zero
      have := (hI.seeding hrun).1
      simp only [outstandingFolders, hrun, if_true] at h5
      omega
    obtain ⟨pc, hpc⟩ := hex
    have := h0 pc hall hpc
    subst this
    exact exec_one client s (.seed 0) (by simp [step, hrun, hpc]) (by simp [works])
  | poll =>
    by_cases hq : s.Folders = 0 ∧ s.Files = 0
    · exact exec_one client s .run (by simp [step, hrun, hl, hq]) (by simp [works, hq])
    cases hf : s.forwarder with
    | send x =>
      exact exec_one client s .forwarder (by simp [step, hf]) (by simp [works])
    | subFiles =>
      exact exec_one client s .forwarder (by simp [step, hf, hl]) (by simp [works])
    | recv =>
      by_cases hbusy : ∃ pc ∈ s.listers, pc ≠ .recv
      · obtain ⟨pc, hmem, hne⟩ := hbusy
        obtain ⟨i, hi⟩ := List.getElem?_of_mem hmem
        exact lister_can_work client list hans s hl hf i pc hi hne
      · have hall : ∀ q ∈ s.listers, q = .recv := by
          intro q hq'
          by_contra hne
          exact hbusy ⟨q, hq', hne⟩
        have hF0 : (s.listers.map ListerPC.heldFolders).sum = 0 := by
          rw [List.map_congr_left (g := fun _ => (0 : Int))
            (fun q hq' => by rw [hall q hq']; rfl)]
          simp
        have hK0 : (s.listers.map ListerPC.heldFiles).sum = 0 := by
          rw [List.map_congr_left (g := fun _ => (0 : Int))
            (fun q hq' => by rw [hall q hq']; rfl)]
          simp
        simp only [outstandingFiles, hf, hK0, reduceCtorEq, if_false] at h6
        simp only [outstandingFolders, hrun, hF0, reduceCtorEq, if_false] at h5
        obtain ⟨pc, hpc⟩ := hex
        have := h0 pc hall hpc
        subst this
        cases hqu : s.queue with
        | nil =>
          rw [hqu] at h5
          simp at h5
          exact absurd ⟨h5, by omega⟩ hq
        | cons c rest =>
          cases hp : s.pump with
          | offerSel =>
            exact exec_one client s (.pumpOffer 0) (by simp [step, hp, hpc, hqu])
              (by simp [works])
          | recvSel =>
            exact exec_two client s { s with pump := .offerSel } .pumpSkipRecv
              (.pumpOffer 0) (by simp [step, hp]) (by simp [step, hpc, hqu])
              (by simp [works])

end S3List

namespace S3List

/-! ## Completeness: the bucket behind the mock as a finite tree -/

lemma servesPages_cons (list : Str → Str → ListResp) (f m : Str) (pg : ListResp)
    (rest : List ListResp) :
    ServesPages (pureClient list) f () m (pg :: rest) ↔
      pg = list f m ∧
        (if pg.IsTruncated = true then ServesPages (pureClient list) f () pg.NextMarker rest
         else rest = []) := by
  cases rest with
  | nil =>
    simp only [ServesPages]
    constructor
    · rintro ⟨st', hc, ht⟩
      simp only [pureClient, Prod.mk.injEq, Except.ok.injEq] at hc
      exact ⟨hc.2.symm, by simp [ht]⟩
    · rintro ⟨h1, h2⟩
      refine ⟨(), by simp [pureClient, h1], ?_⟩
      by_contra hc
      simp only [Bool.not_eq_false] at hc
      rw [if_pos hc] at h2
      exact h2
  | cons pg' ps =>
    simp only [ServesPages]
    constructor
    · rintro ⟨st', hc, ht, hrest⟩
      simp only [pureClient, Prod.mk.injEq, Except.ok.injEq] at hc
      refine ⟨hc.2.symm, ?_⟩
      rw [if_pos ht]
      exact hrest
    · rintro ⟨h1, h2⟩
      by_cases ht : pg.IsTruncated = true
      · rw [if_pos ht] at h2
        exact ⟨(), by simp [pureClient, h1], ht, h2⟩
      · rw [if_neg ht] at h2
        cases h2

lemma servesPages_ne_nil (list : Str → Str → ListResp) (f m : Str) (ps : List ListResp)
    (h : ServesPages (pureClient list) f () m ps) : ps ≠ [] := by
  rintro rfl
  simp [ServesPages] at h

lemma servesPages_unique (list : Str → Str → ListResp) (f : Str) :
    ∀ (ps : List ListResp) (m : Str) (ps' : List ListResp),
      ServesPages (pureClient list) f () m ps →
      ServesPages (pureClient list) f () m ps' → ps = ps' := by
  intro ps
  induction ps with
  | nil => intro m ps' h; exact absurd rfl (servesPages_ne_nil list f m [] h)
  | cons pg rest ih =>
    intro m ps' h h'
    cases ps' with
    | nil => exact absurd rfl (servesPages_ne_nil list f m [] h')
    | cons pg' rest' =>
      rw [servesPages_cons] at h h'
      obtain ⟨h1, h2⟩ := h
      obtain ⟨h1', h2'⟩ := h'
      have e : pg = pg' := h1.trans h1'.symm
      subst e
      by_cases ht : pg.IsTruncated = true
      · rw [if_pos ht] at h2 h2'
        rw [ih _ _ h2 h2']
      · rw [if_neg ht] at h2 h2'
        rw [h2, h2']

lemma length_le_sum_of_mem (objs : List Str) (k : Str) (h : k ∈ objs) :
    k.length ≤ (objs.map List.length).sum := by
  induction objs with
  | nil => cases h
  | cons a objs ih =>
    simp only [List.map_cons, List.sum_cons]
    rcases List.mem_cons.1 h with rfl | h
    · omega
    · have := ih h; omega

lemma takeWhile_slash_split (rest : Str) (h : '/' ∈ rest) :
    ∃ t, rest = rest.takeWhile (fun c => c != '/') ++ '/' :: t := by
  induction rest with
  | nil => cases h
  | cons a rest ih =>
    by_cases ha : a = '/'
    · subst ha
      exact ⟨rest, by simp [List.takeWhile]⟩
    · have h' : '/' ∈ rest := by
        rcases List.mem_cons.1 h with h | h
        · exact absurd h.symm ha
        · exact h
      obtain ⟨t, ht⟩ := ih h'
      refine ⟨t, ?_⟩
      have : (a != '/') = true := by simpa using ha
      rw [List.takeWhile_cons, this]
      simp only [if_true, List.cons_append, List.cons.injEq, true_and]
      exact ht

lemma takeWhile_slash_append (a t : Str) (ha : '/' ∉ a) :
    (a ++ '/' :: t).takeWhile (fun c => c != '/') = a := by
  induction a with
  | nil => simp [List.takeWhile]
  | cons x a ih =>
    have hx : x ≠ '/' := fun e => ha (by simp [e])
    have ha' : '/' ∉ a := fun e => ha (List.mem_cons_of_mem _ e)
    have : (x != '/') = true := by simpa using hx
    rw [List.cons_append, List.takeWhile_cons, this]
    simp only [if_true, List.cons.injEq, true_and]
    exact ih ha'

lemma takeWhile_no_slash (rest : Str) : '/' ∉ rest.takeWhile (fun c => c != '/') := by
  intro h
  have := List.mem_takeWhile_imp h
  simp at this

/-- A key with a `/` after the prefix lies under its child prefix. -/
lemma childOf_under (f k : Str) (hf : f <+: k) (hs : '/' ∈ k.drop f.length) :
    childOf f k <+: k := by
  obtain ⟨t, ht⟩ := takeWhile_slash_split _ hs
  refine ⟨t, ?_⟩
  have hk : f ++ k.drop f.length = k := List.prefix_iff_eq_append.1 hf
  unfold childOf
  conv_rhs => rw [← hk, ht]
  simp

/-- A key under a child prefix of `f` lies under `f`, has a `/` after `f`, and
that child prefix is its own. -/
lemma childOf_of_under (f k₀ k : Str) (h : childOf f k₀ <+: k) :
    f <+: k ∧ '/' ∈ k.drop f.length ∧ childOf f k = childOf f k₀ := by
  obtain ⟨t, ht⟩ := h
  have hk : k = f ++ ((k₀.drop f.length).takeWhile (fun c => c != '/') ++ '/' :: t) := by
    rw [← ht]; unfold childOf; simp
  have hd : k.drop f.length =
      (k₀.drop f.length).takeWhile (fun c => c != '/') ++ '/' :: t := by
    rw [hk, List.drop_left]
  refine ⟨⟨_, hk.symm⟩, ?_, ?_⟩
  · rw [hd]; simp
  · unfold childOf
    rw [hd, takeWhile_slash_append _ _ (takeWhile_no_slash _)]

lemma mem_childPrefixes (objs : List Str) (f c : Str) :
    c ∈ childPrefixes objs f ↔
      ∃ k ∈ objs, f <+: k ∧ '/' ∈ k.drop f.length ∧ childOf f k = c := by
  unfold childPrefixes
  simp only [List.mem_dedup, List.mem_map, List.mem_filter, decide_eq_true_eq]
  constructor
  · rintro ⟨k, ⟨hk, hf, hs⟩, rfl⟩
    exact ⟨k, hk, hf, hs, rfl⟩
  · rintro ⟨k, hk, hf, hs, rfl⟩
    exact ⟨k, ⟨hk, hf, hs⟩, rfl⟩

lemma prefixRank_child (objs : List Str) (f c : Str) (h : c ∈ childPrefixes objs f) :
    prefixRank objs c < prefixRank objs f := by
  obtain ⟨k, hk, hf, hs, rfl⟩ := (mem_childPrefixes objs f c).1 h
  have h1 := (childOf_under f k hf hs).length_le
  have h2 := length_le_sum_of_mem objs k hk
  have h3 : f.length < (childOf f k).length := by
    unfold childOf; simp
  unfold prefixRank
  omega

/-- A mock that serves a bucket has its pages and a rank: the finite tree. -/
lemma exists_oracle (list : Str → Str → ListResp) (objs : List Str)
    (hS : ServesBucket list objs) :
    ∃ chainOf : Str → Str → List ListResp,
      TreeOracle list chainOf (prefixRank objs) ∧
      ∀ f, ((chainOf f []).flatMap
              (fun pg => pg.Contents.map (fun k => k.Key))).Perm (directKeys objs f) ∧
           ((chainOf f []).flatMap
              (fun pg => pg.CommonPrefixes)).Perm (childPrefixes objs f) := by
  classical
  choose full h1 h2 h3 using hS
  let chainOf : Str → Str → List ListResp := fun f m =>
    if h : ∃ ps, ps <:+ full f ∧ ServesPages (pureClient list) f () m ps then h.choose
    else []
  have K : ∀ f m ps, ps <:+ full f → ServesPages (pureClient list) f () m ps →
      chainOf f m = ps := by
    intro f m ps hsuf hps
    have hex : ∃ ps, ps <:+ full f ∧ ServesPages (pureClient list) f () m ps :=
      ⟨ps, hsuf, hps⟩
    have : chainOf f m = hex.choose := by
      simp only [chainOf, dif_pos hex]
    rw [this]
    exact servesPages_unique list f _ m _ hex.choose_spec.2 hps
  have K' : ∀ f m, chainOf f m ≠ [] →
      chainOf f m <:+ full f ∧ ServesPages (pureClient list) f () m (chainOf f m) := by
    intro f m hne
    by_cases hex : ∃ ps, ps <:+ full f ∧ ServesPages (pureClient list) f () m ps
    · have : chainOf f m = hex.choose := by
        simp only [chainOf, dif_pos hex]
      rw [this]
      exact hex.choose_spec
    · exfalso
      apply hne
      simp only [chainOf, dif_neg hex]
  have hroot : ∀ f, chainOf f [] = full f := fun f =>
    K f [] (full f) (List.suffix_refl _) (h1 f)
  refine ⟨chainOf, ⟨?_, ?_, ?_⟩, ?_⟩
  · intro f
    rw [hroot]
    exact servesPages_ne_nil list f [] _ (h1 f)
  · intro f m hne
    obtain ⟨hsuf, hps⟩ := K' f m hne
    cases hch : chainOf f m with
    | nil => exact absurd hch hne
    | cons pg rest =>
      rw [hch] at hsuf hps
      rw [servesPages_cons] at hps
      obtain ⟨hpg, hrest⟩ := hps
      subst hpg
      have hsuf' : rest <:+ full f := (List.suffix_cons _ _).trans hsuf
      by_cases ht : (list f m).IsTruncated = true
      · rw [if_pos ht] at hrest
        have := K f _ rest hsuf' hrest
        rw [if_pos ht, this]
        exact ⟨rfl, fun _ => servesPages_ne_nil list f _ _ hrest⟩
      · rw [if_neg ht] at hrest
        rw [if_neg ht, hrest]
        exact ⟨rfl, fun h => absurd h ht⟩
  · intro f m pg c hpg hc
    have hne : chainOf f m ≠ [] := List.ne_nil_of_mem hpg
    have hmem : pg ∈ full f := (K' f m hne).1.subset hpg
    apply prefixRank_child
    rw [← (h3 f).mem_iff]
    exact List.mem_flatMap.2 ⟨pg, hmem, hc⟩
  · intro f
    rw [hroot]
    exact ⟨h2 f, h3 f⟩

end S3List

namespace S3List

/-! ## Completeness: the keys under a prefix, level by level -/

lemma sum_indicator {κ : Type} [DecidableEq κ] (c₀ : κ) (N : Nat) :
    ∀ l : List κ, l.Nodup →
      (l.map (fun c => if c = c₀ then N else 0)).sum = if c₀ ∈ l then N else 0 := by
  intro l
  induction l with
  | nil => intro _; simp
  | cons a l ih =>
    intro hnd
    obtain ⟨ha, hl⟩ := List.nodup_cons.1 hnd
    simp only [List.map_cons, List.sum_cons, ih hl, List.mem_cons]
    by_cases h : a = c₀
    · subst h
      simp [ha]
    · have h' : ¬ c₀ = a := fun e => h e.symm
      simp [h, h']

lemma count_list_sum (k : Str) (L : List (Multiset Str)) :
    Multiset.count k L.sum = (L.map (Multiset.count k)).sum := by
  induction L with
  | nil => simp
  | cons a L ih => simp [ih]

/-- The keys under `f` are those directly under it together with those under its
child prefixes, each once. -/
lemma keys_partition (objs : List Str) (f : Str) :
    ((objs.filter (fun k => decide (f <+: k)) : List Str) : Multiset Str) =
      (directKeys objs f : Multiset Str) +
        ((childPrefixes objs f).map
          (fun c => ((objs.filter (fun k => decide (c <+: k)) : List Str) : Multiset Str))).sum := by
  ext k
  have e1 : ∀ (q : Str → Prop) [DecidablePred q],
      Multiset.count k ((objs.filter (fun x => decide (q x)) : List Str) : Multiset Str) =
        if q k then Multiset.count k (objs : Multiset Str) else 0 := by
    intro q _
    rw [← Multiset.filter_coe, Multiset.count_filter]
  have hN : Multiset.count k (objs : Multiset Str) ≠ 0 → k ∈ objs := by
    intro h
    have := Multiset.count_ne_zero.1 h
    simpa using this
  rw [Multiset.count_add, count_list_sum, List.map_map]
  unfold directKeys
  rw [e1 (fun x => f <+: x), e1 (fun x => f <+: x ∧ '/' ∉ x.drop f.length)]
  have hfun : (childPrefixes objs f).map
        (Multiset.count k ∘
          fun c => ((objs.filter (fun k => decide (c <+: k)) : List Str) : Multiset Str)) =
      (childPrefixes objs f).map (fun c => if c = childOf f k then
          (if f <+: k ∧ '/' ∈ k.drop f.length then
             Multiset.count k (objs : Multiset Str) else 0) else 0) := by
    apply List.map_congr_left
    intro c hc
    simp only [Function.comp_def]
    rw [e1 (fun x => c <+: x)]
    obtain ⟨k₀, -, -, -, rfl⟩ := (mem_childPrefixes objs f c).1 hc
    by_cases hp : childOf f k₀ <+: k
    · obtain ⟨a, b, e⟩ := childOf_of_under f k₀ k hp
      rw [if_pos hp, if_pos e.symm, if_pos ⟨a, b⟩]
    · rw [if_neg hp]
      by_cases e : childOf f k₀ = childOf f k
      · have : ¬ (f <+: k ∧ '/' ∈ k.drop f.length) := by
          rintro ⟨a, b⟩
          exact hp (e ▸ childOf_under f k a b)
        rw [if_pos e, if_neg this]
      · rw [if_neg e]
  have hnd : (childPrefixes objs f).Nodup := List.nodup_dedup _
  rw [hfun, sum_indicator _ _ _ hnd]
  by_cases hf : f <+: k
  · by_cases hs : '/' ∈ k.drop f.length
    · have h1 : ¬ (f <+: k ∧ '/' ∉ k.drop f.length) := fun h => h.2 hs
      have h3 : f <+: k ∧ '/' ∈ k.drop f.length := ⟨hf, hs⟩
      rw [if_pos hf, if_neg h1, if_pos h3, zero_add]
      by_cases hm : childOf f k ∈ childPrefixes objs f
      · rw [if_pos hm]
      · rw [if_neg hm]
        by_contra hne
        exact hm ((mem_childPrefixes objs f _).2 ⟨k, hN hne, hf, hs, rfl⟩)
    · have h1 : ¬ (f <+: k ∧ '/' ∈ k.drop f.length) := fun h => hs h.2
      have h3 : f <+: k ∧ '/' ∉ k.drop f.length := ⟨hf, hs⟩
      rw [if_pos hf, if_pos h3, if_neg h1]
      simp
  · have h1 : ¬ (f <+: k ∧ '/' ∈ k.drop f.length) := fun h => hf h.1
    have h2 : ¬ (f <+: k ∧ '/' ∉ k.drop f.length) := fun h => hf h.1
    rw [if_neg hf, if_neg h1, if_neg h2]
    simp

lemma sum_singletons {α : Type} (h : α → Str) (l : List α) :
    (l.map (fun a => ({h a} : Multiset Str))).sum = ((l.map h : List Str) : Multiset Str) := by
  induction l with
  | nil => rfl
  | cons a l ih =>
    simp only [List.map_cons, List.sum_cons, ih]
    rfl

lemma map_list_sum_coe (h : Str → Str) (L : List (Multiset Str)) :
    Multiset.map h L.sum = (L.map (Multiset.map h)).sum := by
  induction L with
  | nil => simp
  | cons a L ih => simp [ih]

/-- What a sequence of pages is worth in entries: the entries of its contents and
what its common prefixes are worth. -/
lemma pages_entries (g : Str → Multiset Str) (ps : List ListResp) :
    (ps.map (pagePot (0 : Multiset Str) (fun x => {x}) g)).sum =
      ((ps.flatMap (fun pg => pg.CommonPrefixes)).map g).sum +
        (((ps.flatMap (fun pg => pg.Contents.map (fun k => k.Key))).map entryOf : List Str) :
          Multiset Str) := by
  induction ps with
  | nil => simp
  | cons pg ps ih =>
    have hpg : pagePot (0 : Multiset Str) (fun x => {x}) g pg =
        (pg.CommonPrefixes.map g).sum +
          (((pg.Contents.map (fun k => k.Key)).map entryOf : List Str) : Multiset Str) := by
      unfold pagePot
      simp only [smul_zero, zero_add, add_zero]
      rw [sum_singletons (fun k : S3Key => '/' :: k.Key)]
      simp [entryOf, Function.comp_def]
    simp only [List.map_cons, List.sum_cons, ih, hpg, List.flatMap_cons, List.map_append,
      List.sum_append, ← Multiset.coe_add]
    abel

/-- The entries a prefix is worth are the expected ones: one for each object of
the bucket whose key begins with the prefix. -/
lemma folderPot_entries (list : Str → Str → ListResp) (objs : List Str)
    (chainOf : Str → Str → List ListResp)
    (hO : TreeOracle list chainOf (prefixRank objs))
    (hP : ∀ f, ((chainOf f []).flatMap
              (fun pg => pg.Contents.map (fun k => k.Key))).Perm (directKeys objs f) ∧
           ((chainOf f []).flatMap
              (fun pg => pg.CommonPrefixes)).Perm (childPrefixes objs f)) :
    ∀ (n : Nat) (f : Str), prefixRank objs f = n →
      folderPot (0 : Multiset Str) (fun x => {x}) chainOf (prefixRank objs f + 1) f =
        ((expectedEntries objs f : List Str) : Multiset Str) := by
  intro n
  induction n using Nat.strong_induction_on with
  | _ n ih =>
    intro f hf
    rw [folderPot_unfold (0 : Multiset Str) (fun x => {x}) chainOf (prefixRank objs)
      (fun f pg c => hO.wf f [] pg c) f, add_zero, pages_entries]
    obtain ⟨hk, hc⟩ := hP f
    rw [(hc.map _).sum_eq, Multiset.coe_eq_coe.2 (hk.map entryOf)]
    have hih : (childPrefixes objs f).map
          (fun c => folderPot (0 : Multiset Str) (fun x => {x}) chainOf
            (prefixRank objs c + 1) c) =
        (childPrefixes objs f).map
          (fun c => ((expectedEntries objs c : List Str) : Multiset Str)) := by
      apply List.map_congr_left
      intro c hc'
      exact ih _ (hf ▸ prefixRank_child objs f c hc') c rfl
    rw [hih]
    have hpart := congrArg (Multiset.map entryOf) (keys_partition objs f)
    rw [Multiset.map_add, map_list_sum_coe, List.map_map] at hpart
    simp only [Multiset.map_coe, Function.comp_def] at hpart
    unfold expectedEntries
    rw [hpart]
    abel

end S3List

namespace S3List

/-! ## Completeness of the engine (C1) -/

lemma exec_append {σ : Type} (client : BucketClient σ) :
    ∀ (as as' : List Action) (s s₁ s₂ : State σ),
      exec client s as = some s₁ → exec client s₁ as' = some s₂ →
        exec client s (as ++ as') = some s₂ := by
  intro as
  induction as with
  | nil =>
    intro as' s s₁ s₂ h h'
    simp only [exec, Option.some.injEq] at h
    subst h
    exact h'
  | cons a as ih =>
    intro as' s s₁ s₂ h h'
    simp only [exec, List.cons_append] at h ⊢
    cases hs : step client s a with
    | none => simp [hs] at h
    | some t =>
      simp only [hs] at h ⊢
      exact ih as' t s₁ s₂ h h'

lemma Inv_exec {σ : Type} (client : BucketClient σ) (n : Nat) (p : Str)
    (as : List Action) (s s' : State σ) (hI : Inv n p s)
    (h : exec client s as = some s') : Inv n p s' :=
  reachable_induction client (Inv n p)
    (fun s w s' hI hs => Inv_step client n p s w s' hI hs) as s s' hI h

section Potential
variable {β : Type} [AddCommMonoid β] (u : β) (ent : Str → β)

/-- Along a schedule, what the state is worth goes down by one unit per working
step. -/
lemma statePot_exec {σ : Type} (client : BucketClient σ) (list : Str → Str → ListResp)
    (chainOf : Str → Str → List ListResp) (rank : Str → Nat)
    (hO : TreeOracle list chainOf rank) (hans : AnswersFrom client list)
    (g : Str → β)
    (hg : ∀ f, g f = ((chainOf f []).map (pagePot u ent g)).sum + u) :
    ∀ (as : List Action) (s s' : State σ),
      (∀ pc ∈ s.listers, pc.OnChain chainOf) → exec client s as = some s' →
        statePot u ent chainOf g s =
            statePot u ent chainOf g s' + workCount client s as • u ∧
          (∀ pc ∈ s'.listers, pc.OnChain chainOf) := by
  intro as
  induction as with
  | nil =>
    intro s s' hch h
    simp only [exec, Option.some.injEq] at h
    subst h
    exact ⟨by simp [workCount], hch⟩
  | cons a as ih =>
    intro s s' hch h
    simp only [exec] at h
    cases hs : step client s a with
    | none => simp [hs] at h
    | some t =>
      simp only [hs] at h
      obtain ⟨e1, hch', -⟩ := statePot_step u ent client list chainOf rank hO hans g hg
        s _ t hch (step_sound client s t a hs)
      obtain ⟨e2, hch''⟩ := ih t s' hch' h
      refine ⟨?_, hch''⟩
      rw [e1, e2]
      simp only [workCount, hs]
      by_cases hw : works client s a = true
      · simp only [hw, if_true, add_smul, one_smul]
        abel
      · simp only [hw, Bool.false_eq_true, if_false, zero_add, add_zero]

lemma listerPot_idle (chainOf : Str → Str → List ListResp) (g : Str → β)
    (L : List ListerPC) (h : ∀ pc ∈ L, pc = .recv) :
    (L.map (listerPot u ent chainOf g)).sum = 0 := by
  induction L with
  | nil => rfl
  | cons pc L ih =>
    have h1 : pc = .recv := h pc (List.mem_cons_self _ _)
    subst h1
    simp only [List.map_cons, List.sum_cons, listerPot, zero_add]
    exact ih (fun q hq => h q (List.mem_cons_of_mem _ hq))

lemma statePot_init {σ : Type} (chainOf : Str → Str → List ListResp) (g : Str → β)
    (this : FilesListRequest) (st : σ) :
    statePot u ent chainOf g (Run_init this st) = 3 • u + g this.startFolder := by
  simp only [statePot, Run_init, runPot, forwarderPot, List.map_nil, List.sum_nil, add_zero]
  rw [listerPot_idle u ent chainOf g _ (fun pc hpc => List.eq_of_mem_replicate hpc)]
  simp

end Potential

lemma onChain_init {σ : Type} (chainOf : Str → Str → List ListResp)
    (this : FilesListRequest) (st : σ) :
    ∀ pc ∈ (Run_init this st).listers, pc.OnChain chainOf := by
  intro pc hpc
  rw [List.eq_of_mem_replicate hpc]
  trivial

/-- From any state the engine can reach, a schedule leads to the return of `Run`. -/
lemma can_finish {σ : Type} (client : BucketClient σ) (list : Str → Str → ListResp)
    (chainOf : Str → Str → List ListResp) (rank : Str → Nat)
    (hO : TreeOracle list chainOf rank) (hans : AnswersFrom client list)
    (g : Str → Nat) (hg : ∀ f, g f = ((chainOf f []).map (pagePot 1 (fun _ => 0) g)).sum + 1)
    (n : Nat) (hn : 1 ≤ n) (p : Str) :
    ∀ (k : Nat) (s : State σ), statePot 1 (fun _ => 0) chainOf g s = k →
      Inv n p s → (∀ pc ∈ s.listers, pc.OnChain chainOf) →
      ∃ as s', exec client s as = some s' ∧ s'.run = .returned := by
  intro k
  induction k using Nat.strong_induction_on with
  | _ k ih =>
    intro s hk hI hch
    by_cases hr : s.run = .returned
    · exact ⟨[], s, rfl, hr⟩
    · obtain ⟨as, s₁, h1, hw⟩ := engine_progress client list hans n hn p s hI hr
      obtain ⟨e, hch₁⟩ := statePot_exec 1 (fun _ => 0) client list chainOf rank hO hans g hg
        as s s₁ hch h1
      have hI₁ := Inv_exec client n p as s s₁ hI h1
      have hlt : statePot 1 (fun _ => 0) chainOf g s₁ < k := by
        rw [← hk, e]
        simp only [smul_eq_mul, mul_one]
        omega
      obtain ⟨as', s₂, h2, hr₂⟩ := ih _ hlt s₁ rfl hI₁ hch₁
      exact ⟨as ++ as', s₂, exec_append client as as' s s₁ s₂ h1 h2, hr₂⟩

/-- C1: take a bucket holding the objects `objs`, a mock `list` that serves it
with delimiter `/` (each prefix's listing split into pages in any way), a
client that answers from the mock, and an engine with at least one worker
started by `Run` on its start folder.  Then, under every schedule:
what has been delivered on `files` is, up to order, part of the expected
entries, one `"/" + key` per object whose key begins with the start folder, so
no entry is delivered twice; once `Run` has returned, what has been delivered
is, up to order, exactly the expected entries, so none is missed; before `Run`
has returned a working step can always be taken, and from every reachable
state some schedule leads to the return of `Run`; and the number of working
steps of any schedule is bounded, so the engine cannot work forever. -/
theorem engine_complete {σ : Type} (client : BucketClient σ) (list : Str → Str → ListResp)
    (objs : List Str) (hans : AnswersFrom client list) (hS : ServesBucket list objs)
    (this : FilesListRequest) (hn : 1 ≤ this.concurrencyLevel) (st : σ) :
    (∀ (as : List Action) (s : State σ), exec client (Run_init this st) as = some s →
      s.files.Subperm (expectedEntries objs this.startFolder) ∧
      (objs.Nodup → s.files.Nodup) ∧
      (s.run = .returned → s.files.Perm (expectedEntries objs this.startFolder)) ∧
      (s.run ≠ .returned →
        ∃ as' s', exec client s as' = some s' ∧ 1 ≤ workCount client s as') ∧
      (∃ as' s', exec client s as' = some s' ∧ s'.run = .returned)) ∧
    (∃ N : Nat, ∀ (as : List Action) (s : State σ),
      exec client (Run_init this st) as = some s →
        workCount client (Run_init this st) as ≤ N) := by
  obtain ⟨chainOf, hO, hP⟩ := exists_oracle list objs hS
  have hwf : ∀ f pg c, pg ∈ chainOf f [] → c ∈ pg.CommonPrefixes →
      prefixRank objs c < prefixRank objs f := fun f pg c => hO.wf f [] pg c
  have hn' : 1 ≤ this.concurrencyLevel.toNat := by omega
  -- the entries and the work a prefix is worth
  let gE : Str → Multiset Str := fun f =>
    folderPot (0 : Multiset Str) (fun x => {x}) chainOf (prefixRank objs f + 1) f
  let gW : Str → Nat := fun f =>
    folderPot (1 : Nat) (fun _ => 0) chainOf (prefixRank objs f + 1) f
  have hgE : ∀ f, gE f =
      ((chainOf f []).map (pagePot (0 : Multiset Str) (fun x => {x}) gE)).sum + 0 :=
    fun f => folderPot_unfold _ _ chainOf (prefixRank objs) hwf f
  have hgW : ∀ f, gW f = ((chainOf f []).map (pagePot 1 (fun _ => 0) gW)).sum + 1 :=
    fun f => folderPot_unfold _ _ chainOf (prefixRank objs) hwf f
  have hexp : gE this.startFolder =
      ((expectedEntries objs this.startFolder : List Str) : Multiset Str) :=
    folderPot_entries list objs chainOf hO hP _ _ rfl
  constructor
  · intro as s h
    have hI := Inv_reachable client this st as s h
    obtain ⟨eE, hch⟩ := statePot_exec (0 : Multiset Str) (fun x => {x}) client list chainOf
      (prefixRank objs) hO hans gE hgE as _ s (onChain_init chainOf this st) h
    rw [statePot_init, smul_zero, smul_zero, zero_add, add_zero, hexp] at eE
    have hsub : s.files.Subperm (expectedEntries objs this.startFolder) := by
      rw [← Multiset.coe_le, eE]
      unfold statePot
      rw [sum_singletons (fun x => x), List.map_id']
      exact Multiset.le_add_left _ _
    refine ⟨hsub, ?_, ?_, ?_, ?_⟩
    · intro hnd
      have : (expectedEntries objs this.startFolder).Nodup := by
        unfold expectedEntries
        exact (hnd.filter _).map (fun a b hab => by simpa [entryOf] using hab)
      obtain ⟨l, hl, hl'⟩ := hsub
      exact hl.nodup_iff.1 (hl'.nodup this)
    · intro hr
      obtain ⟨hf0, hk0⟩ := hI.done hr
      have h5 := hI.folders
      have h6 := hI.files
      have hA := sum_heldFolders_nonneg s.listers
      have hB := sum_heldFiles_nonneg s.listers
      simp only [outstandingFolders, hr, reduceCtorEq, if_false] at h5
      have hall : ∀ pc ∈ s.listers, pc = .recv :=
        sum_heldFolders_eq_zero _ (by omega)
      have hq : s.queue = [] := by
        have : (s.queue.length : Int) = 0 := by omega
        exact List.length_eq_zero.1 (by exact_mod_cast this)
      have hfw : s.forwarder = .recv := by
        unfold outstandingFiles at h6
        cases hfw : s.forwarder with
        | recv => rfl
        | send x => simp only [hfw, reduceCtorEq, if_false] at h6; omega
        | subFiles => simp only [hfw, if_true] at h6; omega
      have : statePot (0 : Multiset Str) (fun x => {x}) chainOf gE s =
          ((s.files : List Str) : Multiset Str) := by
        unfold statePot
        rw [listerPot_idle _ _ chainOf gE _ hall, hq, hfw, hr,
          sum_singletons (fun x => x), List.map_id']
        simp [runPot, forwarderPot]
      rw [this] at eE
      exact (Multiset.coe_eq_coe.1 eE).symm
    · intro hr
      exact engine_progress client list hans _ hn' _ s hI hr
    · exact can_finish client list chainOf (prefixRank objs) hO hans gW hgW _ hn' _ _ s rfl
        hI hch
  · refine ⟨3 + gW this.startFolder, ?_⟩
    intro as s h
    obtain ⟨eW, -⟩ := statePot_exec (1 : Nat) (fun _ => 0) client list chainOf
      (prefixRank objs) hO hans gW hgW as _ s (onChain_init chainOf this st) h
    rw [statePot_init] at eW
    simp only [smul_eq_mul, mul_one] at eW
    omega

lemma pagedMock_serves (objs : List Str) : ServesBucket (pagedMock objs) objs := by
  intro f
  refine ⟨[pagedMock objs f [], pagedMock objs f "m".toList], ?_, ?_, ?_⟩
  · exact ⟨(), rfl, rfl, (), rfl, rfl⟩
  · simp [pagedMock, List.flatMap, Function.comp_def]
  · simp [pagedMock, List.flatMap]

/-- Witness for C1: the bucket of the examples behind the two-page mock, three
workers, start folder `d/`. -/
theorem engine_complete_witness :
    (AnswersFrom (pureClient (pagedMock exampleObjects)) (pagedMock exampleObjects) ∧
     ServesBucket (pagedMock exampleObjects) exampleObjects ∧
     1 ≤ (Concurrency (exampleRequest "/d/".toList) 3).1.concurrencyLevel) ∧
    ((∀ (as : List Action) (s : State Unit),
      exec (pureClient (pagedMock exampleObjects))
          (Run_init (Concurrency (exampleRequest "/d/".toList) 3).1 ()) as = some s →
      s.files.Subperm (expectedEntries exampleObjects
          (Concurrency (exampleRequest "/d/".toList) 3).1.startFolder) ∧
      (exampleObjects.Nodup → s.files.Nodup) ∧
      (s.run = .returned → s.files.Perm (expectedEntries exampleObjects
          (Concurrency (exampleRequest "/d/".toList) 3).1.startFolder)) ∧
      (s.run ≠ .returned →
        ∃ as' s', exec (pureClient (pagedMock exampleObjects)) s as' = some s' ∧
          1 ≤ workCount (pureClient (pagedMock exampleObjects)) s as') ∧
      (∃ as' s', exec (pureClient (pagedMock exampleObjects)) s as' = some s' ∧
        s'.run = .returned)) ∧
    (∃ N : Nat, ∀ (as : List Action) (s : State Unit),
      exec (pureClient (pagedMock exampleObjects))
          (Run_init (Concurrency (exampleRequest "/d/".toList) 3).1 ()) as = some s →
        workCount (pureClient (pagedMock exampleObjects))
          (Run_init (Concurrency (exampleRequest "/d/".toList) 3).1 ()) as ≤ N)) :=
  ⟨⟨fun st _ _ => ⟨st, rfl⟩, pagedMock_serves exampleObjects, by decide⟩,
   engine_complete (pureClient (pagedMock exampleObjects)) (pagedMock exampleObjects)
    exampleObjects (fun st _ _ => ⟨st, rfl⟩) (pagedMock_serves exampleObjects)
    (Concurrency (exampleRequest "/d/".toList) 3).1 (by decide) ()⟩

end S3List

